import Mathlib

/-!
Verification of the text module (src/text.c): UTF-8 decoding, glyph lookup,
font atlas sizing and packing, and text measurement / draw layout.

Modelling conventions:
* Machine integers are modelled as `Nat`/`Int`; C floats are modelled as exact
  rationals; a C `(int)` cast of a float is truncation toward zero (`cTrunc`).
* A C byte buffer is modelled as an oracle `f : Nat → Nat`; every read of an
  `unsigned char` value is `f i % 256`.  A C string with no embedded null byte
  is modelled as the `List Nat` of its bytes, the terminator being supplied by
  `List.getD _ _ 0` past the end of the list.
-/

/-- Truncation toward zero of a rational: the semantics of a C `(int)` cast. -/
def cTrunc (q : ℚ) : ℤ := if 0 ≤ q then ⌊q⌋ else -⌊-q⌋

/-- Embedding of `GetNextCodepoint` (src/text.c:507-611).  The byte buffer is an
oracle `f`; `f i % 256` models the `unsigned char` read of `text[i]`.  Returns
`(codepoint, bytesProcessed)`.  The final `code > 0x10ffff` cap, applied in the
source to the paths that fall through the decoding chain, is applied here to the
result of the whole chain; on the early-error paths this is the identity (their
code is already `0x3f`), so the two placements agree on every path. -/
def GetNextCodepoint (f : ℕ → ℕ) : ℕ × ℕ :=
  let octet := f 0 % 256
  let r : ℕ × ℕ :=
    if octet ≤ 0x7f then
      -- Only one octet (ASCII range x00-7F)
      (octet, 1)
    else if octet &&& 0xe0 = 0xc0 then
      -- Two octets
      let octet1 := f 1 % 256
      if octet1 = 0 ∨ octet1 >>> 6 ≠ 2 then (0x3f, 2)    -- unexpected sequence
      else if 0xc2 ≤ octet ∧ octet ≤ 0xdf then
        (((octet &&& 0x1f) <<< 6) ||| (octet1 &&& 0x3f), 2)
      else (0x3f, 1)
    else if octet &&& 0xf0 = 0xe0 then
      -- Three octets
      let octet1 := f 1 % 256
      if octet1 = 0 ∨ octet1 >>> 6 ≠ 2 then (0x3f, 2)    -- unexpected sequence
      else
        let octet2 := f 2 % 256
        if octet2 = 0 ∨ octet2 >>> 6 ≠ 2 then (0x3f, 3)  -- unexpected sequence
        else if (octet = 0xe0 ∧ ¬(0xa0 ≤ octet1 ∧ octet1 ≤ 0xbf)) ∨
                (octet = 0xed ∧ ¬(0x80 ≤ octet1 ∧ octet1 ≤ 0x9f)) then (0x3f, 2)
        else if 0xe0 ≤ octet ∧ (0 : ℕ) ≤ 0xef then  -- the source literally tests `0 <= 0xef`
          (((octet &&& 0xf) <<< 12) ||| ((octet1 &&& 0x3f) <<< 6) ||| (octet2 &&& 0x3f), 3)
        else (0x3f, 1)
    else if octet &&& 0xf8 = 0xf0 then
      -- Four octets
      if 0xf4 < octet then (0x3f, 1)
      else
        let octet1 := f 1 % 256
        if octet1 = 0 ∨ octet1 >>> 6 ≠ 2 then (0x3f, 2)    -- unexpected sequence
        else
          let octet2 := f 2 % 256
          if octet2 = 0 ∨ octet2 >>> 6 ≠ 2 then (0x3f, 3)  -- unexpected sequence
          else
            let octet3 := f 3 % 256
            if octet3 = 0 ∨ octet3 >>> 6 ≠ 2 then (0x3f, 4) -- unexpected sequence
            else if (octet = 0xf0 ∧ ¬(0x90 ≤ octet1 ∧ octet1 ≤ 0xbf)) ∨
                    (octet = 0xf4 ∧ ¬(0x80 ≤ octet1 ∧ octet1 ≤ 0x8f)) then (0x3f, 2)
            else if 0xf0 ≤ octet then
              (((octet &&& 0x7) <<< 18) ||| ((octet1 &&& 0x3f) <<< 12) |||
                 ((octet2 &&& 0x3f) <<< 6) ||| (octet3 &&& 0x3f), 4)
            else (0x3f, 1)
    else (0x3f, 1)
  (if 0x10ffff < r.1 then 0x3f else r.1, r.2)

/-- `GetNextCodepoint` applied at the start of a null-terminated byte string
given as a list of its (non-null) bytes. -/
def GetNextCodepointL (l : List ℕ) : ℕ × ℕ :=
  GetNextCodepoint fun i => l.getD i 0

/-- Nominal encoded length of a UTF-8 sequence as classified by its lead byte
(the same lead-byte masks the decoder dispatches on). -/
def utf8ClassLen (b : ℕ) : ℕ :=
  if b ≤ 0x7f then 1
  else if b &&& 0xe0 = 0xc0 then 2
  else if b &&& 0xf0 = 0xe0 then 3
  else if b &&& 0xf8 = 0xf0 then 4
  else 1

/-- A valid UTF-8 continuation byte: top two bits are `10`. -/
def validCont (b : ℕ) : Prop := b >>> 6 = 2

instance (b : ℕ) : Decidable (validCont b) := by unfold validCont; infer_instance

/-- The range restrictions the decoder imposes on the first continuation byte
for the range-restricted lead bytes `0xE0`, `0xED`, `0xF0`, `0xF4`. -/
def leadRangeOk (b0 b1 : ℕ) : Prop :=
  ¬((b0 = 0xe0 ∧ ¬(0xa0 ≤ b1 ∧ b1 ≤ 0xbf)) ∨
    (b0 = 0xed ∧ ¬(0x80 ≤ b1 ∧ b1 ≤ 0x9f)) ∨
    (b0 = 0xf0 ∧ ¬(0x90 ≤ b1 ∧ b1 ≤ 0xbf)) ∨
    (b0 = 0xf4 ∧ ¬(0x80 ≤ b1 ∧ b1 ≤ 0x8f)))

instance (b0 b1 : ℕ) : Decidable (leadRangeOk b0 b1) := by
  unfold leadRangeOk; infer_instance

/-- Modelled from the spec: the standard RFC 3629 UTF-8 encoding of a Unicode
scalar value (no encoder exists in src/text.c; the decoder's own comment cites
RFC 3629, whose encoding this is). -/
def utf8Encode (c : ℕ) : List ℕ :=
  if c ≤ 0x7f then [c]
  else if c ≤ 0x7ff then [0xc0 + c / 64, 0x80 + c % 64]
  else if c ≤ 0xffff then [0xe0 + c / 4096, 0x80 + (c / 64) % 64, 0x80 + c % 64]
  else [0xf0 + c / 262144, 0x80 + (c / 4096) % 64, 0x80 + (c / 64) % 64, 0x80 + c % 64]

/-- The final `code > 0x10ffff` remap of `GetNextCodepoint`. -/
def gncCap (r : ℕ × ℕ) : ℕ × ℕ := (if 0x10ffff < r.1 then 0x3f else r.1, r.2)

/-- The decoding chain of `GetNextCodepoint` expressed on the four (already
`unsigned char`-converted) octet values it can read.  `gnc_eval` below shows
`GetNextCodepoint` agrees with it; this form is convenient for symbolic
reasoning. -/
def gncBytes (b0 b1 b2 b3 : ℕ) : ℕ × ℕ :=
  gncCap <|
    if b0 ≤ 0x7f then
      (b0, 1)
    else if b0 &&& 0xe0 = 0xc0 then
      if b1 = 0 ∨ b1 >>> 6 ≠ 2 then (0x3f, 2)
      else if 0xc2 ≤ b0 ∧ b0 ≤ 0xdf then
        (((b0 &&& 0x1f) <<< 6) ||| (b1 &&& 0x3f), 2)
      else (0x3f, 1)
    else if b0 &&& 0xf0 = 0xe0 then
      if b1 = 0 ∨ b1 >>> 6 ≠ 2 then (0x3f, 2)
      else if b2 = 0 ∨ b2 >>> 6 ≠ 2 then (0x3f, 3)
      else if (b0 = 0xe0 ∧ ¬(0xa0 ≤ b1 ∧ b1 ≤ 0xbf)) ∨
              (b0 = 0xed ∧ ¬(0x80 ≤ b1 ∧ b1 ≤ 0x9f)) then (0x3f, 2)
      else if 0xe0 ≤ b0 ∧ (0 : ℕ) ≤ 0xef then
        (((b0 &&& 0xf) <<< 12) ||| ((b1 &&& 0x3f) <<< 6) ||| (b2 &&& 0x3f), 3)
      else (0x3f, 1)
    else if b0 &&& 0xf8 = 0xf0 then
      if 0xf4 < b0 then (0x3f, 1)
      else if b1 = 0 ∨ b1 >>> 6 ≠ 2 then (0x3f, 2)
      else if b2 = 0 ∨ b2 >>> 6 ≠ 2 then (0x3f, 3)
      else if b3 = 0 ∨ b3 >>> 6 ≠ 2 then (0x3f, 4)
      else if (b0 = 0xf0 ∧ ¬(0x90 ≤ b1 ∧ b1 ≤ 0xbf)) ∨
              (b0 = 0xf4 ∧ ¬(0x80 ≤ b1 ∧ b1 ≤ 0x8f)) then (0x3f, 2)
      else if 0xf0 ≤ b0 then
        (((b0 &&& 0x7) <<< 18) ||| ((b1 &&& 0x3f) <<< 12) |||
           ((b2 &&& 0x3f) <<< 6) ||| (b3 &&& 0x3f), 4)
      else (0x3f, 1)
    else (0x3f, 1)

/-! ### Data model: glyph records, rectangles, fonts (value structs of rayn.h,
reconstructed from their uses in src/text.c) -/

structure CharInfo where
  value : ℕ
  imgWidth : ℕ
  imgHeight : ℕ
  imgData : List ℕ
  offsetX : ℤ
  offsetY : ℤ
  advanceX : ℤ
deriving DecidableEq

structure Rectangle where
  x : ℚ
  y : ℚ
  width : ℚ
  height : ℚ
deriving DecidableEq

instance : Inhabited CharInfo := ⟨⟨0, 0, 0, [], 0, 0, 0⟩⟩

instance : Inhabited Rectangle := ⟨⟨0, 0, 0, 0⟩⟩

structure Font where
  baseSize : ℤ
  charsCount : ℕ
  chars : List CharInfo
  recs : List Rectangle
deriving DecidableEq

/-- A draw command emitted by the draw iteration: atlas-source rectangle paired
with the destination rectangle (the two `Rectangle` arguments of the
`DrawTexturePro` call in src/text.c:412). -/
structure DrawCmd where
  src : Rectangle
  dst : Rectangle
deriving DecidableEq

/-- `TEXT_CHARACTER_NOTFOUND` (src/text.c:480), the fallback *index* value. -/
def TEXT_CHARACTER_NOTFOUND : ℕ := 63

/-- The scan loop of `GetGlyphIndex` (src/text.c:483-495): starting at index
`i` with `fuel` indices left before `charsCount`, return the first index whose
entry's codepoint equals `cp`, else the fallback. -/
def glyphIndexAux (chars : List CharInfo) (cp : ℕ) : ℕ → ℕ → ℕ
  | _, 0 => TEXT_CHARACTER_NOTFOUND
  | i, fuel + 1 =>
    if (chars.getD i default).value = cp then i
    else glyphIndexAux chars cp (i + 1) fuel

/-- Embedding of `GetGlyphIndex` (src/text.c:478-499), `UNORDERED_CHARSET`
variant: linear scan over the first `charsCount` glyph entries; when the
codepoint is absent the constant `TEXT_CHARACTER_NOTFOUND` (= 63) is returned
as the index. -/
def GetGlyphIndex (font : Font) (cp : ℕ) : ℕ :=
  glyphIndexAux font.chars cp 0 font.charsCount

/-- Codepoint decoded at the head of the remaining text, as both loops obtain
it (src/text.c:389 and 444). -/
def cpValue (l : List ℕ) : ℕ := (GetNextCodepointL l).1

/-- Loop-counter advance for the current codepoint: both `DrawTextEx` and
`MeasureTextEx` override the decoder's byte count with 1 when the decoded
codepoint is `0x3F` (src/text.c:394 and 449). -/
def cpAdvance (l : List ℕ) : ℕ :=
  if (GetNextCodepointL l).1 = 0x3f then 1 else (GetNextCodepointL l).2

/-- The common codepoint walk of `DrawTextEx` and `MeasureTextEx`: the sequence
of codepoints visited when scanning the byte string with `cpAdvance` steps.
The loop advances by `i++` (drop the head) plus `i += byteCount - 1`; the
structural fuel argument bounds the number of iterations and is never
exhausted when it starts at the byte length, since every step consumes at
least the head byte. -/
def codepointsAux : ℕ → List ℕ → List ℕ
  | 0, _ => []
  | _, [] => []
  | fuel + 1, h :: t =>
    cpValue (h :: t) :: codepointsAux fuel (t.drop (cpAdvance (h :: t) - 1))

/-- The codepoint walk of a whole byte string. -/
def codepoints (l : List ℕ) : List ℕ := codepointsAux l.length l

/-- Loop body and state of `DrawTextEx` (src/text.c:376-421): walks the byte
string, carrying the pen offsets `textOffsetX` (float) and `textOffsetY`
(int) and the draw commands emitted so far; returns the final state. -/
def drawGo (font : Font) (pos : ℚ × ℚ) (fontSize spacing : ℚ) :
    ℕ → List ℕ → ℚ → ℤ → List DrawCmd → ℚ × ℤ × List DrawCmd
  | 0, _, offX, offY, cmds => (offX, offY, cmds)
  | _, [], offX, offY, cmds => (offX, offY, cmds)
  | fuel + 1, h :: t, offX, offY, cmds =>
    let scaleFactor := fontSize / (font.baseSize : ℚ)
    let codepoint := cpValue (h :: t)
    let index := GetGlyphIndex font codepoint
    if codepoint = 10 then
      -- fixed line spacing of 1.5 line-height; `baseSize/2` is C int division
      drawGo font pos fontSize spacing fuel (t.drop (cpAdvance (h :: t) - 1)) 0
        (offY + cTrunc (((font.baseSize + font.baseSize.tdiv 2 : ℤ) : ℚ) * scaleFactor))
        cmds
    else
      let ci := font.chars.getD index default
      let rc := font.recs.getD index default
      let cmds' :=
        if codepoint ≠ 32 ∧ codepoint ≠ 9 then
          cmds ++ [⟨rc,
            ⟨pos.1 + offX + (ci.offsetX : ℚ) * scaleFactor,
             pos.2 + (offY : ℚ) + (ci.offsetY : ℚ) * scaleFactor,
             rc.width * scaleFactor, rc.height * scaleFactor⟩⟩]
        else cmds
      let offX' :=
        if ci.advanceX = 0 then offX + (rc.width * scaleFactor + spacing)
        else offX + ((ci.advanceX : ℚ) * scaleFactor + spacing)
      drawGo font pos fontSize spacing fuel (t.drop (cpAdvance (h :: t) - 1)) offX' offY cmds'

/-- Embedding of `DrawTextEx` (src/text.c:376-421).  Returns the final
`(textOffsetX, textOffsetY, draw commands)`. -/
def drawTextEx (font : Font) (text : List ℕ) (pos : ℚ × ℚ)
    (fontSize spacing : ℚ) : ℚ × ℤ × List DrawCmd :=
  drawGo font pos fontSize spacing text.length text 0 0 []

/-- Loop body and state of `MeasureTextEx` (src/text.c:439-466): carries
`lenCounter`, `tempLen`, `textWidth`, `tempTextWidth`, `textHeight`; returns
the final `(tempLen, textWidth, tempTextWidth, textHeight)`. -/
def measureGo (font : Font) :
    ℕ → List ℕ → ℤ → ℤ → ℚ → ℚ → ℚ → ℤ × ℚ × ℚ × ℚ
  | 0, _, _, tempLen, textWidth, tempTextWidth, textHeight =>
      (tempLen, textWidth, tempTextWidth, textHeight)
  | _, [], _, tempLen, textWidth, tempTextWidth, textHeight =>
      (tempLen, textWidth, tempTextWidth, textHeight)
  | fuel + 1, h :: t, lenCounter, tempLen, textWidth, tempTextWidth, textHeight =>
    let lenC := lenCounter + 1
    let letter := cpValue (h :: t)
    let index := GetGlyphIndex font letter
    if letter ≠ 10 then
      let ci := font.chars.getD index default
      let rc := font.recs.getD index default
      let w := if ci.advanceX ≠ 0 then textWidth + (ci.advanceX : ℚ)
               else textWidth + (rc.width + (ci.offsetX : ℚ))
      measureGo font fuel (t.drop (cpAdvance (h :: t) - 1)) lenC (max tempLen lenC)
        w tempTextWidth textHeight
    else
      measureGo font fuel (t.drop (cpAdvance (h :: t) - 1)) 0 (max tempLen 0)
        0 (max tempTextWidth textWidth) (textHeight + (font.baseSize : ℚ) * (3 / 2))

/-- Embedding of `MeasureTextEx` (src/text.c:424-475).  Returns the measured
`(width, height)`. -/
def measureTextEx (font : Font) (text : List ℕ) (fontSize spacing : ℚ) : ℚ × ℚ :=
  let scaleFactor := fontSize / (font.baseSize : ℚ)
  let r := measureGo font text.length text 0 0 0 0 (font.baseSize : ℚ)
  let tempTextWidth := max r.2.2.1 r.2.1
  (tempTextWidth * scaleFactor + ((r.1 - 1 : ℤ) : ℚ) * spacing, r.2.2.2 * scaleFactor)

/-- The advance the layout engine reads for codepoint `c`: the `advanceX`
field of the glyph entry that `GetGlyphIndex` selects (src/text.c:415-416 and
454). -/
def advQ (font : Font) (c : ℕ) : ℚ :=
  ((font.chars.getD (GetGlyphIndex font c) default).advanceX : ℚ)

/-- Sum of the advances of a codepoint sequence. -/
def advSumQ (font : Font) (cs : List ℕ) : ℚ := (cs.map (advQ font)).sum

/-- A font whose single glyph (codepoint 65) has zero `advanceX`, bitmap width
10 and `offsetX` 5: the draw pass then advances by the rectangle width alone
while the measure pass adds the rectangle width plus `offsetX`. -/
def zeroAdvFont : Font := ⟨1, 1, [⟨65, 10, 10, [], 5, 0, 0⟩], [⟨0, 0, 10, 10⟩]⟩

/-- A font whose single glyph is the replacement character itself (codepoint
63 at index 0). -/
def qmarkFont : Font := ⟨32, 1, [⟨63, 6, 8, [], 0, 0, 7⟩], [⟨0, 0, 6, 8⟩]⟩

/-- A base-size-32 font holding the glyphs of the two-line scenario string
(codepoints of the letters H i W o r l d, with advances 10 5 12 8 6 4 8). -/
def hiFont : Font :=
  ⟨32, 7,
   [⟨72, 8, 8, [], 0, 0, 10⟩, ⟨105, 4, 8, [], 0, 0, 5⟩, ⟨87, 9, 9, [], 0, 0, 12⟩,
    ⟨111, 6, 6, [], 0, 0, 8⟩, ⟨114, 5, 5, [], 0, 0, 6⟩, ⟨108, 3, 8, [], 0, 0, 4⟩,
    ⟨100, 6, 8, [], 0, 0, 8⟩],
   [⟨0, 0, 8, 8⟩, ⟨8, 0, 4, 8⟩, ⟨12, 0, 9, 9⟩, ⟨21, 0, 6, 6⟩, ⟨27, 0, 5, 5⟩,
    ⟨32, 0, 3, 8⟩, ⟨35, 0, 6, 8⟩]⟩

/-! ### Glyph metrics extraction (`LoadFontData`) -/

/-- Modelled from the spec: the font-type selector values `FONT_DEFAULT`,
`FONT_BITMAP`, `FONT_SDF` (the enum lives in the missing header rayn.h; the
spec names the three render modes bitmap / anti-aliased / SDF; only their
distinctness matters here). -/
def FONT_DEFAULT : ℕ := 0

/-- Modelled from the spec: see `FONT_DEFAULT`. -/
def FONT_BITMAP : ℕ := 1

/-- Modelled from the spec: see `FONT_DEFAULT`. -/
def FONT_SDF : ℕ := 2

/-- The external rasterizer collaborator (stb_truetype), abstracted exactly as
the spec's section 6 interface: the font handle is identified with the raw
byte buffer it was initialized from. -/
structure RasterizerM where
  initFont : List ℕ → Bool
  scaleForPixelHeight : List ℕ → ℚ → ℚ
  vMetrics : List ℕ → ℤ × ℤ × ℤ
  codepointBitmap : List ℕ → ℚ → ℕ → List ℕ × ℕ × ℕ × ℤ × ℤ
  codepointSDF : List ℕ → ℚ → ℕ → ℕ → ℕ → ℚ → List ℕ × ℕ × ℕ × ℤ × ℤ
  hMetrics : List ℕ → ℕ → ℤ

/-- Result of `LoadFontData`: the returned `chars` pointer (`none` models the
`NULL` initial value that is returned when the file cannot be opened) and the
two `TraceLog(LOG_WARNING, ...)` calls it can make. -/
structure FontDataResult where
  chars : Option (List CharInfo)
  warnedFileOpen : Bool
  warnedInitFail : Bool

/-- Embedding of `LoadFontData` (src/text.c:109-216).  `fileData` is the result
of the `fopen`/`fread` preamble (`none`: file could not be opened).  Note the
source merely logs when `stbtt_InitFont` fails and then carries on extracting
with the failed handle. -/
def LoadFontData (rast : RasterizerM) (fileData : Option (List ℕ)) (fontSize : ℕ)
    (fontChars : Option (List ℕ)) (charsCount : ℕ) (ftype : ℕ) : FontDataResult :=
  match fileData with
  | none => ⟨none, true, false⟩
  | some buf =>
    let warnInit := ! rast.initFont buf
    let scaleFactor := rast.scaleForPixelHeight buf (fontSize : ℚ)
    let ascent := (rast.vMetrics buf).1
    let count := if 0 < charsCount then charsCount else 95
    let fchars := fontChars.getD ((List.range count).map (fun i => i + 32))
    let chars := (List.range count).map (fun i =>
      let ch := fchars.getD i 0
      let bm :=
        if ftype ≠ FONT_SDF then rast.codepointBitmap buf scaleFactor ch
        else if ch ≠ 32 then rast.codepointSDF buf scaleFactor ch 4 128 64
        else ([], 0, 0, 0, 0)
      let dat :=
        if ftype = FONT_BITMAP then bm.1.map (fun p => if p < 80 then 0 else 255)
        else bm.1
      { value := ch
        imgWidth := bm.2.1
        imgHeight := bm.2.2.1
        imgData := dat
        offsetX := bm.2.2.2.1
        offsetY := bm.2.2.2.2 + cTrunc ((ascent : ℚ) * scaleFactor)
        advanceX := cTrunc ((rast.hMetrics buf ch : ℚ) * scaleFactor) })
    ⟨some chars, false, warnInit⟩

/-- A rasterizer model whose initialization rejects every byte buffer (all
other collaborator calls return degenerate values, as a failed stb handle
would). -/
def rejectingRast : RasterizerM :=
  ⟨fun _ => false, fun _ _ => 0, fun _ => (0, 0, 0), fun _ _ _ => ([], 0, 0, 0, 0),
   fun _ _ _ _ _ _ => ([], 0, 0, 0, 0), fun _ _ => 0⟩

/-! ### Atlas generation (`GenImageFontAtlas`) -/

/-- `requiredArea` of `GenImageFontAtlas` (src/text.c:236-237): sum over the
first `count` glyphs of `(width + 2·padding)·(height + 2·padding)`. -/
def requiredArea (chars : List CharInfo) (count : ℕ) (padding : ℕ) : ℕ :=
  ((List.range count).map (fun i =>
    ((chars.getD i default).imgWidth + 2 * padding) *
      ((chars.getD i default).imgHeight + 2 * padding))).sum

/-- Linear search for the least exponent `k ≥ k0` with `100·4^k ≥ 169·A`,
within `fuel` steps (returns the last probe when fuel runs out; the callers
always supply enough fuel). -/
def potExpAux (A : ℕ) : ℕ → ℕ → ℕ
  | 0, k => k
  | fuel + 1, k => if 169 * A ≤ 100 * 4 ^ k then k else potExpAux A fuel (k + 1)

/-- Atlas image size (src/text.c:238-239): in exact arithmetic,
`guessSize = sqrt(A)·1.3` and `imageSize = 2^ceil(log2 guessSize)` is the
least power of two ≥ `guessSize`.  Because `2^k ≥ (13/10)·sqrt A` iff
`100·4^k ≥ 169·A`, that exponent is the least `k` satisfying the latter (the
float rounding of `sqrtf`/`logf`/`powf` is modelled as exact real
arithmetic). -/
def atlasImageSize (A : ℕ) : ℕ := 2 ^ potExpAux A (A + 1) 0

/-- Atlas dimensions produced by `GenImageFontAtlas` (src/text.c:227-242):
square, side `atlasImageSize` of the required area, with the `charsCount ≤ 0 ⇒
95` default applied. -/
def GenImageFontAtlasSize (chars : List CharInfo) (count padding : ℕ) : ℕ × ℕ :=
  let cnt := if 0 < count then count else 95
  let s := atlasImageSize (requiredArea chars cnt padding)
  (s, s)

/-- Row-packing loop of `GenImageFontAtlas`, packMethod 0 (src/text.c:250-287):
place glyphs left to right starting at `(offX, offY)`, advancing by
`width + 2·padding`, wrapping to a new row of height `fontSize + 2·padding`,
and stopping (`break`) when a new row would overflow the atlas height.  A glyph
reached before the break gets `some` rectangle (recorded with the glyph's own
bitmap width/height); glyphs after the break get `none` (their rectangle is
never written by the source). -/
def rowPackGo (atlasW atlasH fontSize padding : ℤ) :
    List CharInfo → ℤ → ℤ → List (Option Rectangle)
  | [], _, _ => []
  | ci :: rest, offX, offY =>
    let r : Rectangle := ⟨(offX : ℚ), (offY : ℚ), (ci.imgWidth : ℚ), (ci.imgHeight : ℚ)⟩
    let offX' := offX + ((ci.imgWidth : ℤ) + 2 * padding)
    if offX' ≥ atlasW - (ci.imgWidth : ℤ) - padding then
      let offY' := offY + (fontSize + 2 * padding)
      if offY' > atlasH - fontSize - padding then
        some r :: rest.map (fun _ => none)
      else
        some r :: rowPackGo atlasW atlasH fontSize padding rest padding offY'
    else
      some r :: rowPackGo atlasW atlasH fontSize padding rest offX' offY

/-- The rectangles recorded by row packing over the first `count` glyphs, at
the atlas size `GenImageFontAtlasSize` computes, starting at `(padding,
padding)` as the source does (src/text.c:252-253). -/
def rowPackRecs (chars : List CharInfo) (count : ℕ) (fontSize : ℤ) (padding : ℕ) :
    List (Option Rectangle) :=
  let cnt := if 0 < count then count else 95
  let sz := ((GenImageFontAtlasSize chars count padding).1 : ℤ)
  rowPackGo sz sz fontSize (padding : ℤ)
    ((List.range cnt).map (fun i => chars.getD i default)) (padding : ℤ) (padding : ℤ)

/-- The rectangles recorded by skyline packing (src/text.c:289-335), with the
external stb_rect_pack collaborator abstracted as an arbitrary placement
`pack : index ↦ (x, y, was_packed)`: for every glyph, `recs[i]` is written as
`(rects[i].x + padding, rects[i].y + padding)` with the glyph's own bitmap
width/height (src/text.c:310-316), regardless of the success flag. -/
def skylineRecs (chars : List CharInfo) (count padding : ℕ)
    (pack : ℕ → ℤ × ℤ × Bool) : List Rectangle :=
  (List.range (if 0 < count then count else 95)).map (fun i =>
    ⟨((pack i).1 : ℚ) + (padding : ℚ), ((pack i).2.1 : ℚ) + (padding : ℚ),
     ((chars.getD i default).imgWidth : ℚ), ((chars.getD i default).imgHeight : ℚ)⟩)

theorem gnc_eval (f : ℕ → ℕ) :
    GetNextCodepoint f = gncBytes (f 0 % 256) (f 1 % 256) (f 2 % 256) (f 3 % 256) := rfl

theorem gncL_eval (a b c d : ℕ) (l : List ℕ) (ha : a < 256) (hb : b < 256)
    (hc : c < 256) (hd : d < 256) :
    GetNextCodepointL (a :: b :: c :: d :: l) = gncBytes a b c d := by
  rw [GetNextCodepointL, gnc_eval]
  simp only [List.getD_cons_zero, List.getD_cons_succ]
  rw [Nat.mod_eq_of_lt ha, Nat.mod_eq_of_lt hb, Nat.mod_eq_of_lt hc, Nat.mod_eq_of_lt hd]

theorem gncL_eval3 (a b c : ℕ) (ha : a < 256) (hb : b < 256) (hc : c < 256) :
    GetNextCodepointL [a, b, c] = gncBytes a b c 0 := by
  rw [GetNextCodepointL, gnc_eval]
  simp only [List.getD_cons_zero, List.getD_cons_succ, List.getD_nil]
  rw [Nat.mod_eq_of_lt ha, Nat.mod_eq_of_lt hb, Nat.mod_eq_of_lt hc]

theorem gncL_eval2 (a b : ℕ) (ha : a < 256) (hb : b < 256) :
    GetNextCodepointL [a, b] = gncBytes a b 0 0 := by
  rw [GetNextCodepointL, gnc_eval]
  simp only [List.getD_cons_zero, List.getD_cons_succ, List.getD_nil]
  rw [Nat.mod_eq_of_lt ha, Nat.mod_eq_of_lt hb]

theorem gncL_eval1 (a : ℕ) (ha : a < 256) :
    GetNextCodepointL [a] = gncBytes a 0 0 0 := by
  rw [GetNextCodepointL, gnc_eval]
  simp only [List.getD_cons_zero, List.getD_cons_succ, List.getD_nil]
  rw [Nat.mod_eq_of_lt ha]


/-! ### Bit-arithmetic helper lemmas -/

theorem mask2_lead : ∀ q < 32, (192 + q) &&& 224 = 192 := by decide
theorem mask2_low : ∀ q < 32, (192 + q) &&& 31 = q := by decide
theorem mask3_lead : ∀ q < 16, (224 + q) &&& 240 = 224 := by decide
theorem mask3_not2 : ∀ q < 16, ¬((224 + q) &&& 224 = 192) := by decide
theorem mask3_low : ∀ q < 16, (224 + q) &&& 15 = q := by decide
theorem mask4_lead : ∀ q < 8, (240 + q) &&& 248 = 240 := by decide
theorem mask4_not2 : ∀ q < 8, ¬((240 + q) &&& 224 = 192) := by decide
theorem mask4_not3 : ∀ q < 8, ¬((240 + q) &&& 240 = 224) := by decide
theorem mask4_low : ∀ q < 8, (240 + q) &&& 7 = q := by decide
theorem maskCont : ∀ m < 64, (128 + m) &&& 63 = m := by decide
theorem contShift : ∀ m < 64, (128 + m) >>> 6 = 2 := by decide

theorem testBit_mul_pow_add (a b k j : ℕ) (hb : b < 2 ^ k) :
    (a * 2 ^ k + b).testBit j = if j < k then b.testBit j else a.testBit (j - k) := by
  rcases Nat.lt_or_ge j k with hj | hj
  · obtain ⟨t, rfl⟩ : ∃ t, k = j + (t + 1) := ⟨k - j - 1, by omega⟩
    rw [if_pos hj, Nat.testBit_to_div_mod, Nat.testBit_to_div_mod]
    have h1 : a * 2 ^ (j + (t + 1)) + b = b + 2 ^ j * (a * (2 ^ t * 2)) := by
      rw [pow_add, pow_succ]; ring
    rw [h1, Nat.add_mul_div_left _ _ (Nat.two_pow_pos j), ← Nat.mul_assoc,
        Nat.add_mul_mod_self_right]
  · rw [if_neg (Nat.not_lt.mpr hj), Nat.testBit_to_div_mod, Nat.testBit_to_div_mod]
    have h1 : a * 2 ^ k + b = 2 ^ k * a + b := by ring
    have h2 : (2 : ℕ) ^ j = 2 ^ k * 2 ^ (j - k) := by
      rw [← pow_add, Nat.add_sub_cancel' hj]
    rw [h1, h2, ← Nat.div_div_eq_div_mul, Nat.mul_add_div (Nat.two_pow_pos k),
        Nat.div_eq_of_lt hb, Nat.add_zero]

theorem lorAdd (a k b : ℕ) (hb : b < 2 ^ k) :
    (a * 2 ^ k) ||| b = a * 2 ^ k + b := by
  apply Nat.eq_of_testBit_eq
  intro j
  rw [Nat.testBit_lor, testBit_mul_pow_add a b k j hb, ← Nat.shiftLeft_eq,
      Nat.testBit_shiftLeft]
  rcases Nat.lt_or_ge j k with hj | hj
  · rw [if_pos hj]
    simp [Nat.not_le.mpr hj]
  · rw [if_neg (Nat.not_lt.mpr hj)]
    have hbf : b.testBit j = false :=
      Nat.testBit_eq_false_of_lt (lt_of_lt_of_le hb (Nat.pow_le_pow_right (by norm_num) hj))
    simp [Nat.le_of_lt_succ, hj, hbf]

theorem combine2 (q m : ℕ) (hm : m < 64) : (q <<< 6) ||| m = 64 * q + m := by
  rw [Nat.shiftLeft_eq, lorAdd q 6 m (by norm_num [hm])]
  ring

theorem combine3 (q m1 m2 : ℕ) (h1 : m1 < 64) (h2 : m2 < 64) :
    (q <<< 12) ||| (m1 <<< 6) ||| m2 = 4096 * q + 64 * m1 + m2 := by
  rw [Nat.shiftLeft_eq, Nat.shiftLeft_eq,
      lorAdd q 12 (m1 * 2 ^ 6) (by norm_num; omega)]
  have h3 : q * 2 ^ 12 + m1 * 2 ^ 6 = (64 * q + m1) * 2 ^ 6 := by norm_num; ring
  rw [h3, lorAdd (64 * q + m1) 6 m2 (by norm_num [h2])]
  ring

theorem combine4 (q m1 m2 m3 : ℕ) (h1 : m1 < 64) (h2 : m2 < 64) (h3 : m3 < 64) :
    (q <<< 18) ||| (m1 <<< 12) ||| (m2 <<< 6) ||| m3 =
      262144 * q + 4096 * m1 + 64 * m2 + m3 := by
  rw [Nat.shiftLeft_eq, Nat.shiftLeft_eq, Nat.shiftLeft_eq,
      lorAdd q 18 (m1 * 2 ^ 12) (by norm_num; omega)]
  have e1 : q * 2 ^ 18 + m1 * 2 ^ 12 = (64 * q + m1) * 2 ^ 12 := by norm_num; ring
  rw [e1, lorAdd (64 * q + m1) 12 (m2 * 2 ^ 6) (by norm_num; omega)]
  have e2 : (64 * q + m1) * 2 ^ 12 + m2 * 2 ^ 6 = (4096 * q + 64 * m1 + m2) * 2 ^ 6 := by
    norm_num; ring
  rw [e2, lorAdd (4096 * q + 64 * m1 + m2) 6 m3 (by norm_num [h3])]
  ring

/-! ### UTF-8 round-trip: per-class evaluation of the decode chain -/

theorem gnc_enc1 (c : ℕ) (h : c ≤ 0x7f) : gncBytes c 0 0 0 = (c, 1) := by
  have hc : ¬((0x10ffff : ℕ) < c) := by omega
  unfold gncBytes gncCap
  rw [if_pos h]
  simp [hc]

theorem gnc_enc2 (c : ℕ) (h1 : 0x80 ≤ c) (h2 : c ≤ 0x7ff) :
    gncBytes (192 + c / 64) (128 + c % 64) 0 0 = (c, 2) := by
  have hq : c / 64 < 32 := by omega
  have hm : c % 64 < 64 := by omega
  have hcap : ¬((0x10ffff : ℕ) < c) := by omega
  unfold gncBytes gncCap
  rw [if_neg (show ¬(192 + c / 64 ≤ 0x7f) by omega),
      if_pos (mask2_lead _ hq),
      if_neg (show ¬(128 + c % 64 = 0 ∨ (128 + c % 64) >>> 6 ≠ 2) by
        rw [not_or]; exact ⟨by omega, not_not.mpr (contShift _ hm)⟩),
      if_pos (show 0xc2 ≤ 192 + c / 64 ∧ 192 + c / 64 ≤ 0xdf by omega),
      mask2_low _ hq, maskCont _ hm, combine2 _ _ hm,
      show 64 * (c / 64) + c % 64 = c by omega]
  simp [hcap]

theorem gnc_enc3 (c : ℕ) (h1 : 0x800 ≤ c) (h2 : c ≤ 0xffff)
    (hsur : c < 0xd800 ∨ 0xdfff < c) :
    gncBytes (224 + c / 4096) (128 + (c / 64) % 64) (128 + c % 64) 0 = (c, 3) := by
  have hq : c / 4096 < 16 := by omega
  have hm1 : (c / 64) % 64 < 64 := by omega
  have hm2 : c % 64 < 64 := by omega
  have hcap : ¬((0x10ffff : ℕ) < c) := by omega
  unfold gncBytes gncCap
  rw [if_neg (show ¬(224 + c / 4096 ≤ 0x7f) by omega),
      if_neg (mask3_not2 _ hq),
      if_pos (mask3_lead _ hq),
      if_neg (show ¬(128 + (c / 64) % 64 = 0 ∨ (128 + (c / 64) % 64) >>> 6 ≠ 2) by
        rw [not_or]; exact ⟨by omega, not_not.mpr (contShift _ hm1)⟩),
      if_neg (show ¬(128 + c % 64 = 0 ∨ (128 + c % 64) >>> 6 ≠ 2) by
        rw [not_or]; exact ⟨by omega, not_not.mpr (contShift _ hm2)⟩),
      if_neg (show ¬((224 + c / 4096 = 0xe0 ∧ ¬(0xa0 ≤ 128 + (c / 64) % 64 ∧
          128 + (c / 64) % 64 ≤ 0xbf)) ∨ (224 + c / 4096 = 0xed ∧
          ¬(0x80 ≤ 128 + (c / 64) % 64 ∧ 128 + (c / 64) % 64 ≤ 0x9f))) by omega),
      if_pos (show 0xe0 ≤ 224 + c / 4096 ∧ (0 : ℕ) ≤ 0xef from ⟨by omega, by omega⟩),
      mask3_low _ hq, maskCont _ hm1, maskCont _ hm2, combine3 _ _ _ hm1 hm2,
      show 4096 * (c / 4096) + 64 * ((c / 64) % 64) + c % 64 = c by omega]
  simp [hcap]

theorem gnc_enc4 (c : ℕ) (h1 : 0x10000 ≤ c) (h2 : c ≤ 0x10ffff) :
    gncBytes (240 + c / 262144) (128 + (c / 4096) % 64) (128 + (c / 64) % 64)
      (128 + c % 64) = (c, 4) := by
  have hq : c / 262144 < 8 := by omega
  have hm1 : (c / 4096) % 64 < 64 := by omega
  have hm2 : (c / 64) % 64 < 64 := by omega
  have hm3 : c % 64 < 64 := by omega
  have hcap : ¬((0x10ffff : ℕ) < c) := by omega
  unfold gncBytes gncCap
  rw [if_neg (show ¬(240 + c / 262144 ≤ 0x7f) by omega),
      if_neg (mask4_not2 _ hq),
      if_neg (mask4_not3 _ hq),
      if_pos (mask4_lead _ hq),
      if_neg (show ¬(0xf4 < 240 + c / 262144) by omega),
      if_neg (show ¬(128 + (c / 4096) % 64 = 0 ∨ (128 + (c / 4096) % 64) >>> 6 ≠ 2) by
        rw [not_or]; exact ⟨by omega, not_not.mpr (contShift _ hm1)⟩),
      if_neg (show ¬(128 + (c / 64) % 64 = 0 ∨ (128 + (c / 64) % 64) >>> 6 ≠ 2) by
        rw [not_or]; exact ⟨by omega, not_not.mpr (contShift _ hm2)⟩),
      if_neg (show ¬(128 + c % 64 = 0 ∨ (128 + c % 64) >>> 6 ≠ 2) by
        rw [not_or]; exact ⟨by omega, not_not.mpr (contShift _ hm3)⟩),
      if_neg (show ¬((240 + c / 262144 = 0xf0 ∧ ¬(0x90 ≤ 128 + (c / 4096) % 64 ∧
          128 + (c / 4096) % 64 ≤ 0xbf)) ∨ (240 + c / 262144 = 0xf4 ∧
          ¬(0x80 ≤ 128 + (c / 4096) % 64 ∧ 128 + (c / 4096) % 64 ≤ 0x8f))) by omega),
      if_pos (show 0xf0 ≤ 240 + c / 262144 by omega),
      mask4_low _ hq, maskCont _ hm1, maskCont _ hm2, maskCont _ hm3,
      combine4 _ _ _ _ hm1 hm2 hm3,
      show 262144 * (c / 262144) + 4096 * ((c / 4096) % 64) + 64 * ((c / 64) % 64) +
        c % 64 = c by omega]
  simp [hcap]

/-- **C3**: for every Unicode scalar value in U+0000..U+10FFFF outside the
surrogate range, `GetNextCodepoint` decodes the value's standard UTF-8 encoding
back to the same codepoint and reports a consumed-byte count equal to the
encoding's exact length (1, 2, 3 or 4 according to its encoding class). -/
theorem C3_decode_roundtrip (c : ℕ) (hmax : c ≤ 0x10ffff)
    (hsur : c < 0xd800 ∨ 0xdfff < c) :
    GetNextCodepointL (utf8Encode c) = (c, (utf8Encode c).length) ∧
    (utf8Encode c).length =
      (if c ≤ 0x7f then 1 else if c ≤ 0x7ff then 2 else if c ≤ 0xffff then 3 else 4) := by
  rcases Nat.lt_or_ge c 0x80 with h1 | h1
  · have he : utf8Encode c = [c] := by
      unfold utf8Encode; rw [if_pos (by omega)]
    rw [he]
    refine ⟨?_, ?_⟩
    · rw [gncL_eval1 _ (by omega), gnc_enc1 _ (by omega)]
      rfl
    · show 1 = _
      rw [if_pos (by omega)]
  · rcases Nat.lt_or_ge c 0x800 with h2 | h2
    · have he : utf8Encode c = [192 + c / 64, 128 + c % 64] := by
        unfold utf8Encode; rw [if_neg (by omega), if_pos (by omega)]
      rw [he]
      refine ⟨?_, ?_⟩
      · rw [gncL_eval2 _ _ (by omega) (by omega), gnc_enc2 _ (by omega) (by omega)]
        rfl
      · show 2 = _
        rw [if_neg (by omega), if_pos (by omega)]
    · rcases Nat.lt_or_ge c 0x10000 with h3 | h3
      · have he : utf8Encode c = [224 + c / 4096, 128 + (c / 64) % 64, 128 + c % 64] := by
          unfold utf8Encode; rw [if_neg (by omega), if_neg (by omega), if_pos (by omega)]
        rw [he]
        refine ⟨?_, ?_⟩
        · rw [gncL_eval3 _ _ _ (by omega) (by omega) (by omega),
              gnc_enc3 _ (by omega) (by omega) hsur]
          rfl
        · show 3 = _
          rw [if_neg (by omega), if_neg (by omega), if_pos (by omega)]
      · have he : utf8Encode c =
            [240 + c / 262144, 128 + (c / 4096) % 64, 128 + (c / 64) % 64, 128 + c % 64] := by
          unfold utf8Encode
          rw [if_neg (by omega), if_neg (by omega), if_neg (by omega)]
        rw [he]
        refine ⟨?_, ?_⟩
        · rw [gncL_eval _ _ _ _ [] (by omega) (by omega) (by omega) (by omega),
              gnc_enc4 _ (by omega) (by omega)]
          rfl
        · show 4 = _
          rw [if_neg (by omega), if_neg (by omega), if_neg (by omega)]

/-- Witness for C3 at the concrete scalar value U+20AC (three-byte class). -/
theorem C3_decode_roundtrip_witness :
    GetNextCodepointL (utf8Encode 0x20ac) = (0x20ac, 3) := by
  have h := (C3_decode_roundtrip 0x20ac (by norm_num) (Or.inl (by norm_num))).1
  rw [h]
  rfl

/-! ### C2: invalid or truncated continuation bytes -/

theorem gncCap_err (k : ℕ) : gncCap (0x3f, k) = (0x3f, k) := by
  unfold gncCap; norm_num

theorem gncBytes_bad (b0 b1 b2 b3 : ℕ)
    (hn : 2 ≤ utf8ClassLen b0)
    (hbad : (¬ validCont b1 ∧ 2 ≤ utf8ClassLen b0) ∨
            (¬ validCont b2 ∧ 3 ≤ utf8ClassLen b0) ∨
            (¬ validCont b3 ∧ 4 ≤ utf8ClassLen b0) ∨
            ¬ leadRangeOk b0 b1) :
    (gncBytes b0 b1 b2 b3).1 = 0x3f ∧ (gncBytes b0 b1 b2 b3).2 ≤ utf8ClassLen b0 := by
  by_cases hA : b0 ≤ 0x7f
  · exfalso
    have h1 : utf8ClassLen b0 = 1 := by unfold utf8ClassLen; rw [if_pos hA]
    omega
  by_cases hB : b0 &&& 0xe0 = 0xc0
  · have hcl : utf8ClassLen b0 = 2 := by
      unfold utf8ClassLen; rw [if_neg hA, if_pos hB]
    rw [hcl]
    have hv1 : ¬ validCont b1 := by
      rcases hbad with ⟨h, _⟩ | ⟨_, h3⟩ | ⟨_, h4⟩ | hlr
      · exact h
      · rw [hcl] at h3; omega
      · rw [hcl] at h4; omega
      · exfalso
        rcases not_not.mp hlr with ⟨he, _⟩ | ⟨he, _⟩ | ⟨he, _⟩ | ⟨he, _⟩ <;>
          rw [he] at hB <;> exact absurd hB (by decide)
    unfold gncBytes
    rw [if_neg hA, if_pos hB, if_pos (Or.inr (show b1 >>> 6 ≠ 2 from hv1)), gncCap_err]
    exact ⟨rfl, by norm_num⟩
  by_cases hC : b0 &&& 0xf0 = 0xe0
  · have hcl : utf8ClassLen b0 = 3 := by
      unfold utf8ClassLen; rw [if_neg hA, if_neg hB, if_pos hC]
    rw [hcl]
    by_cases hcond1 : b1 = 0 ∨ b1 >>> 6 ≠ 2
    · unfold gncBytes
      rw [if_neg hA, if_neg hB, if_pos hC, if_pos hcond1, gncCap_err]
      exact ⟨rfl, by norm_num⟩
    by_cases hcond2 : b2 = 0 ∨ b2 >>> 6 ≠ 2
    · unfold gncBytes
      rw [if_neg hA, if_neg hB, if_pos hC, if_neg hcond1, if_pos hcond2, gncCap_err]
      exact ⟨rfl, by norm_num⟩
    rcases hbad with ⟨hv, _⟩ | ⟨hv, _⟩ | ⟨_, h4⟩ | hlr
    · exact absurd (Or.inr (show b1 >>> 6 ≠ 2 from hv)) hcond1
    · exact absurd (Or.inr (show b2 >>> 6 ≠ 2 from hv)) hcond2
    · rw [hcl] at h4; omega
    · rcases not_not.mp hlr with ⟨he, hr⟩ | ⟨he, hr⟩ | ⟨he, _⟩ | ⟨he, _⟩
      · unfold gncBytes
        rw [if_neg hA, if_neg hB, if_pos hC, if_neg hcond1, if_neg hcond2,
            if_pos (Or.inl ⟨he, hr⟩), gncCap_err]
        exact ⟨rfl, by norm_num⟩
      · unfold gncBytes
        rw [if_neg hA, if_neg hB, if_pos hC, if_neg hcond1, if_neg hcond2,
            if_pos (Or.inr ⟨he, hr⟩), gncCap_err]
        exact ⟨rfl, by norm_num⟩
      · rw [he] at hC; exact absurd hC (by decide)
      · rw [he] at hC; exact absurd hC (by decide)
  by_cases hD : b0 &&& 0xf8 = 0xf0
  · have hcl : utf8ClassLen b0 = 4 := by
      unfold utf8ClassLen; rw [if_neg hA, if_neg hB, if_neg hC, if_pos hD]
    rw [hcl]
    by_cases hf4 : 0xf4 < b0
    · unfold gncBytes
      rw [if_neg hA, if_neg hB, if_neg hC, if_pos hD, if_pos hf4, gncCap_err]
      exact ⟨rfl, by norm_num⟩
    by_cases hcond1 : b1 = 0 ∨ b1 >>> 6 ≠ 2
    · unfold gncBytes
      rw [if_neg hA, if_neg hB, if_neg hC, if_pos hD, if_neg hf4, if_pos hcond1, gncCap_err]
      exact ⟨rfl, by norm_num⟩
    by_cases hcond2 : b2 = 0 ∨ b2 >>> 6 ≠ 2
    · unfold gncBytes
      rw [if_neg hA, if_neg hB, if_neg hC, if_pos hD, if_neg hf4, if_neg hcond1,
          if_pos hcond2, gncCap_err]
      exact ⟨rfl, by norm_num⟩
    by_cases hcond3 : b3 = 0 ∨ b3 >>> 6 ≠ 2
    · unfold gncBytes
      rw [if_neg hA, if_neg hB, if_neg hC, if_pos hD, if_neg hf4, if_neg hcond1,
          if_neg hcond2, if_pos hcond3, gncCap_err]
      exact ⟨rfl, by norm_num⟩
    rcases hbad with ⟨hv, _⟩ | ⟨hv, _⟩ | ⟨hv, _⟩ | hlr
    · exact absurd (Or.inr (show b1 >>> 6 ≠ 2 from hv)) hcond1
    · exact absurd (Or.inr (show b2 >>> 6 ≠ 2 from hv)) hcond2
    · exact absurd (Or.inr (show b3 >>> 6 ≠ 2 from hv)) hcond3
    · rcases not_not.mp hlr with ⟨he, _⟩ | ⟨he, _⟩ | ⟨he, hr⟩ | ⟨he, hr⟩
      · rw [he] at hD; exact absurd hD (by decide)
      · rw [he] at hD; exact absurd hD (by decide)
      · unfold gncBytes
        rw [if_neg hA, if_neg hB, if_neg hC, if_pos hD, if_neg hf4, if_neg hcond1,
            if_neg hcond2, if_neg hcond3, if_pos (Or.inl ⟨he, hr⟩), gncCap_err]
        exact ⟨rfl, by norm_num⟩
      · unfold gncBytes
        rw [if_neg hA, if_neg hB, if_neg hC, if_pos hD, if_neg hf4, if_neg hcond1,
            if_neg hcond2, if_neg hcond3, if_pos (Or.inr ⟨he, hr⟩), gncCap_err]
        exact ⟨rfl, by norm_num⟩
  · exfalso
    have h1 : utf8ClassLen b0 = 1 := by
      unfold utf8ClassLen; rw [if_neg hA, if_neg hB, if_neg hC, if_neg hD]
    omega

/-- **C2**: for every byte sequence whose continuation bytes are truncated,
malformed (top bits not `10`) or out of the lead-byte-specific range,
`GetNextCodepoint` returns the replacement codepoint `0x3F` and a consumed-byte
count at most the sequence's nominal encoded length; in particular decoding
`0xE0 0x9F 0x80` yields codepoint `0x3F` with exactly 2 bytes consumed. -/
theorem C2_invalid_continuation :
    (∀ f : ℕ → ℕ,
        2 ≤ utf8ClassLen (f 0 % 256) →
        ((∃ j, 1 ≤ j ∧ j < utf8ClassLen (f 0 % 256) ∧ ¬ validCont (f j % 256)) ∨
          ¬ leadRangeOk (f 0 % 256) (f 1 % 256)) →
        (GetNextCodepoint f).1 = 0x3f ∧
          (GetNextCodepoint f).2 ≤ utf8ClassLen (f 0 % 256)) ∧
    GetNextCodepointL [0xe0, 0x9f, 0x80] = (0x3f, 2) := by
  constructor
  · intro f hn hbad
    rw [gnc_eval]
    apply gncBytes_bad _ _ _ _ hn
    rcases hbad with ⟨j, hj1, hj2, hj⟩ | hlr
    · have hcl4 : utf8ClassLen (f 0 % 256) ≤ 4 := by
        unfold utf8ClassLen; split_ifs <;> norm_num
      have hj4 : j < 4 := by omega
      interval_cases j
      · exact Or.inl ⟨hj, hn⟩
      · exact Or.inr (Or.inl ⟨hj, by omega⟩)
      · exact Or.inr (Or.inr (Or.inl ⟨hj, by omega⟩))
    · exact Or.inr (Or.inr (Or.inr hlr))
  · decide

/-- Witness for C2 at the concrete malformed input `0xE0 0x20 0x80` (second
byte is not a continuation byte). -/
theorem C2_invalid_continuation_witness :
    (GetNextCodepoint (fun i => [0xe0, 0x20, 0x80].getD i 0)).1 = 0x3f ∧
      (GetNextCodepoint (fun i => [0xe0, 0x20, 0x80].getD i 0)).2 ≤
        utf8ClassLen ((fun i => [0xe0, 0x20, 0x80].getD i 0) 0 % 256) :=
  C2_invalid_continuation.1 _ (by decide)
    (Or.inl ⟨1, by decide, by decide, by decide⟩)

/-! ### C4: the decoder never inspects bytes past the terminating null -/

theorem validCont_ne_zero (b : ℕ) (h : validCont b) : b ≠ 0 := by
  intro hb; rw [hb] at h; exact absurd h (by decide)

theorem gncBytes_ascii (b0 b1 b2 b3 : ℕ) (h : b0 ≤ 0x7f) :
    gncBytes b0 b1 b2 b3 = (b0, 1) := by
  unfold gncBytes gncCap
  rw [if_pos h]
  simp only
  rw [if_neg (by omega)]

theorem gncB_2bad (b0 b1 b2 b3 : ℕ) (hA : ¬ b0 ≤ 0x7f) (hB : b0 &&& 0xe0 = 0xc0)
    (h1 : b1 = 0 ∨ b1 >>> 6 ≠ 2) : gncBytes b0 b1 b2 b3 = (0x3f, 2) := by
  unfold gncBytes
  rw [if_neg hA, if_pos hB, if_pos h1, gncCap_err]

theorem gncB_2ok (b0 b1 b2 b3 : ℕ) (hA : ¬ b0 ≤ 0x7f) (hB : b0 &&& 0xe0 = 0xc0)
    (h1 : ¬(b1 = 0 ∨ b1 >>> 6 ≠ 2)) :
    gncBytes b0 b1 b2 b3 = gncCap
      (if 0xc2 ≤ b0 ∧ b0 ≤ 0xdf then (((b0 &&& 0x1f) <<< 6) ||| (b1 &&& 0x3f), 2)
       else (0x3f, 1)) := by
  unfold gncBytes
  rw [if_neg hA, if_pos hB, if_neg h1]

theorem gncB_3bad1 (b0 b1 b2 b3 : ℕ) (hA : ¬ b0 ≤ 0x7f) (hB : ¬ b0 &&& 0xe0 = 0xc0)
    (hC : b0 &&& 0xf0 = 0xe0) (h1 : b1 = 0 ∨ b1 >>> 6 ≠ 2) :
    gncBytes b0 b1 b2 b3 = (0x3f, 2) := by
  unfold gncBytes
  rw [if_neg hA, if_neg hB, if_pos hC, if_pos h1, gncCap_err]

theorem gncB_3bad2 (b0 b1 b2 b3 : ℕ) (hA : ¬ b0 ≤ 0x7f) (hB : ¬ b0 &&& 0xe0 = 0xc0)
    (hC : b0 &&& 0xf0 = 0xe0) (h1 : ¬(b1 = 0 ∨ b1 >>> 6 ≠ 2))
    (h2 : b2 = 0 ∨ b2 >>> 6 ≠ 2) : gncBytes b0 b1 b2 b3 = (0x3f, 3) := by
  unfold gncBytes
  rw [if_neg hA, if_neg hB, if_pos hC, if_neg h1, if_pos h2, gncCap_err]

theorem gncB_4hi (b0 b1 b2 b3 : ℕ) (hA : ¬ b0 ≤ 0x7f) (hB : ¬ b0 &&& 0xe0 = 0xc0)
    (hC : ¬ b0 &&& 0xf0 = 0xe0) (hD : b0 &&& 0xf8 = 0xf0) (hf : 0xf4 < b0) :
    gncBytes b0 b1 b2 b3 = (0x3f, 1) := by
  unfold gncBytes
  rw [if_neg hA, if_neg hB, if_neg hC, if_pos hD, if_pos hf, gncCap_err]

theorem gncB_4bad1 (b0 b1 b2 b3 : ℕ) (hA : ¬ b0 ≤ 0x7f) (hB : ¬ b0 &&& 0xe0 = 0xc0)
    (hC : ¬ b0 &&& 0xf0 = 0xe0) (hD : b0 &&& 0xf8 = 0xf0) (hf : ¬ 0xf4 < b0)
    (h1 : b1 = 0 ∨ b1 >>> 6 ≠ 2) : gncBytes b0 b1 b2 b3 = (0x3f, 2) := by
  unfold gncBytes
  rw [if_neg hA, if_neg hB, if_neg hC, if_pos hD, if_neg hf, if_pos h1, gncCap_err]

theorem gncB_4bad2 (b0 b1 b2 b3 : ℕ) (hA : ¬ b0 ≤ 0x7f) (hB : ¬ b0 &&& 0xe0 = 0xc0)
    (hC : ¬ b0 &&& 0xf0 = 0xe0) (hD : b0 &&& 0xf8 = 0xf0) (hf : ¬ 0xf4 < b0)
    (h1 : ¬(b1 = 0 ∨ b1 >>> 6 ≠ 2)) (h2 : b2 = 0 ∨ b2 >>> 6 ≠ 2) :
    gncBytes b0 b1 b2 b3 = (0x3f, 3) := by
  unfold gncBytes
  rw [if_neg hA, if_neg hB, if_neg hC, if_pos hD, if_neg hf, if_neg h1, if_pos h2,
      gncCap_err]

theorem gncB_none (b0 b1 b2 b3 : ℕ) (hA : ¬ b0 ≤ 0x7f) (hB : ¬ b0 &&& 0xe0 = 0xc0)
    (hC : ¬ b0 &&& 0xf0 = 0xe0) (hD : ¬ b0 &&& 0xf8 = 0xf0) :
    gncBytes b0 b1 b2 b3 = (0x3f, 1) := by
  unfold gncBytes
  rw [if_neg hA, if_neg hB, if_neg hC, if_neg hD, gncCap_err]

theorem gncBytes_b1zero (b0 b2 b3 : ℕ) : gncBytes b0 0 b2 b3 = gncBytes b0 0 0 0 := by
  by_cases hA : b0 ≤ 0x7f
  · rw [gncBytes_ascii _ _ _ _ hA, gncBytes_ascii _ _ _ _ hA]
  by_cases hB : b0 &&& 0xe0 = 0xc0
  · rw [gncB_2bad _ _ _ _ hA hB (Or.inl rfl), gncB_2bad _ _ _ _ hA hB (Or.inl rfl)]
  by_cases hC : b0 &&& 0xf0 = 0xe0
  · rw [gncB_3bad1 _ _ _ _ hA hB hC (Or.inl rfl), gncB_3bad1 _ _ _ _ hA hB hC (Or.inl rfl)]
  by_cases hD : b0 &&& 0xf8 = 0xf0
  · by_cases hf : 0xf4 < b0
    · rw [gncB_4hi _ _ _ _ hA hB hC hD hf, gncB_4hi _ _ _ _ hA hB hC hD hf]
    · rw [gncB_4bad1 _ _ _ _ hA hB hC hD hf (Or.inl rfl),
          gncB_4bad1 _ _ _ _ hA hB hC hD hf (Or.inl rfl)]
  · rw [gncB_none _ _ _ _ hA hB hC hD, gncB_none _ _ _ _ hA hB hC hD]

theorem gncBytes_b2zero (b0 b1 b3 : ℕ) : gncBytes b0 b1 0 b3 = gncBytes b0 b1 0 0 := by
  by_cases hA : b0 ≤ 0x7f
  · rw [gncBytes_ascii _ _ _ _ hA, gncBytes_ascii _ _ _ _ hA]
  by_cases hB : b0 &&& 0xe0 = 0xc0
  · by_cases h1 : b1 = 0 ∨ b1 >>> 6 ≠ 2
    · rw [gncB_2bad _ _ _ _ hA hB h1, gncB_2bad _ _ _ _ hA hB h1]
    · rw [gncB_2ok _ _ _ _ hA hB h1, gncB_2ok _ _ _ _ hA hB h1]
  by_cases hC : b0 &&& 0xf0 = 0xe0
  · by_cases h1 : b1 = 0 ∨ b1 >>> 6 ≠ 2
    · rw [gncB_3bad1 _ _ _ _ hA hB hC h1, gncB_3bad1 _ _ _ _ hA hB hC h1]
    · rw [gncB_3bad2 _ _ _ _ hA hB hC h1 (Or.inl rfl),
          gncB_3bad2 _ _ _ _ hA hB hC h1 (Or.inl rfl)]
  by_cases hD : b0 &&& 0xf8 = 0xf0
  · by_cases hf : 0xf4 < b0
    · rw [gncB_4hi _ _ _ _ hA hB hC hD hf, gncB_4hi _ _ _ _ hA hB hC hD hf]
    by_cases h1 : b1 = 0 ∨ b1 >>> 6 ≠ 2
    · rw [gncB_4bad1 _ _ _ _ hA hB hC hD hf h1, gncB_4bad1 _ _ _ _ hA hB hC hD hf h1]
    · rw [gncB_4bad2 _ _ _ _ hA hB hC hD hf h1 (Or.inl rfl),
          gncB_4bad2 _ _ _ _ hA hB hC hD hf h1 (Or.inl rfl)]
  · rw [gncB_none _ _ _ _ hA hB hC hD, gncB_none _ _ _ _ hA hB hC hD]

theorem gnc_null_independent (f g : ℕ → ℕ) (n : ℕ) (hnull : f n = 0)
    (hag : ∀ i, i ≤ n → f i = g i) : GetNextCodepoint f = GetNextCodepoint g := by
  rcases n with _ | _ | _ | n
  · have h0 : g 0 = 0 := by rw [← hag 0 (by omega), hnull]
    rw [gnc_eval, gnc_eval, hnull, h0,
        gncBytes_ascii _ _ _ _ (by norm_num), gncBytes_ascii _ _ _ _ (by norm_num)]
  · have e0 : g 0 = f 0 := (hag 0 (by omega)).symm
    have e1 : g 1 = 0 := by rw [← hag 1 (by omega), hnull]
    rw [gnc_eval, gnc_eval, e0, hnull, e1]
    rw [show (0 : ℕ) % 256 = 0 from rfl]
    conv_lhs => rw [gncBytes_b1zero]
    conv_rhs => rw [gncBytes_b1zero]
  · have e0 : g 0 = f 0 := (hag 0 (by omega)).symm
    have e1 : g 1 = f 1 := (hag 1 (by omega)).symm
    have e2 : g 2 = 0 := by rw [← hag 2 (by omega), hnull]
    rw [gnc_eval, gnc_eval, e0, e1, hnull, e2]
    rw [show (0 : ℕ) % 256 = 0 from rfl]
    conv_lhs => rw [gncBytes_b2zero]
    conv_rhs => rw [gncBytes_b2zero]
  · rw [gnc_eval, gnc_eval, hag 0 (by omega), hag 1 (by omega), hag 2 (by omega),
        hag 3 (by omega)]

theorem gnc_truncated (f : ℕ → ℕ) (j : ℕ)
    (hn : 2 ≤ utf8ClassLen (f 0 % 256)) (hf4 : f 0 % 256 ≤ 0xf4)
    (hj1 : 1 ≤ j) (hj2 : j < utf8ClassLen (f 0 % 256))
    (hvalid : ∀ i, 1 ≤ i → i < j → validCont (f i % 256)) (hnull : f j = 0) :
    GetNextCodepoint f = (0x3f, j + 1) := by
  rw [gnc_eval]
  by_cases hA : f 0 % 256 ≤ 0x7f
  · exfalso; unfold utf8ClassLen at hn; rw [if_pos hA] at hn; omega
  by_cases hB : f 0 % 256 &&& 0xe0 = 0xc0
  · have hcl : utf8ClassLen (f 0 % 256) = 2 := by
      unfold utf8ClassLen; rw [if_neg hA, if_pos hB]
    rw [hcl] at hj2
    have hj : j = 1 := by omega
    subst hj
    have h1 : f 1 % 256 = 0 := by rw [hnull]
    unfold gncBytes
    rw [h1, if_neg hA, if_pos hB, if_pos (Or.inl rfl), gncCap_err]
  by_cases hC : f 0 % 256 &&& 0xf0 = 0xe0
  · have hcl : utf8ClassLen (f 0 % 256) = 3 := by
      unfold utf8ClassLen; rw [if_neg hA, if_neg hB, if_pos hC]
    rw [hcl] at hj2
    interval_cases j
    · have h1 : f 1 % 256 = 0 := by rw [hnull]
      unfold gncBytes
      rw [h1, if_neg hA, if_neg hB, if_pos hC, if_pos (Or.inl rfl), gncCap_err]
    · have hv1 := hvalid 1 (by omega) (by omega)
      have h2 : f 2 % 256 = 0 := by rw [hnull]
      unfold gncBytes
      rw [h2, if_neg hA, if_neg hB, if_pos hC,
          if_neg (show ¬(f 1 % 256 = 0 ∨ (f 1 % 256) >>> 6 ≠ 2) by
            rw [not_or]; exact ⟨validCont_ne_zero _ hv1, not_not.mpr hv1⟩),
          if_pos (Or.inl rfl), gncCap_err]
  by_cases hD : f 0 % 256 &&& 0xf8 = 0xf0
  · have hcl : utf8ClassLen (f 0 % 256) = 4 := by
      unfold utf8ClassLen; rw [if_neg hA, if_neg hB, if_neg hC, if_pos hD]
    rw [hcl] at hj2
    have hf4' : ¬(0xf4 < f 0 % 256) := by omega
    interval_cases j
    · have h1 : f 1 % 256 = 0 := by rw [hnull]
      unfold gncBytes
      rw [h1, if_neg hA, if_neg hB, if_neg hC, if_pos hD, if_neg hf4',
          if_pos (Or.inl rfl), gncCap_err]
    · have hv1 := hvalid 1 (by omega) (by omega)
      have h2 : f 2 % 256 = 0 := by rw [hnull]
      unfold gncBytes
      rw [h2, if_neg hA, if_neg hB, if_neg hC, if_pos hD, if_neg hf4',
          if_neg (show ¬(f 1 % 256 = 0 ∨ (f 1 % 256) >>> 6 ≠ 2) by
            rw [not_or]; exact ⟨validCont_ne_zero _ hv1, not_not.mpr hv1⟩),
          if_pos (Or.inl rfl), gncCap_err]
    · have hv1 := hvalid 1 (by omega) (by omega)
      have hv2 := hvalid 2 (by omega) (by omega)
      have h3 : f 3 % 256 = 0 := by rw [hnull]
      unfold gncBytes
      rw [h3, if_neg hA, if_neg hB, if_neg hC, if_pos hD, if_neg hf4',
          if_neg (show ¬(f 1 % 256 = 0 ∨ (f 1 % 256) >>> 6 ≠ 2) by
            rw [not_or]; exact ⟨validCont_ne_zero _ hv1, not_not.mpr hv1⟩),
          if_neg (show ¬(f 2 % 256 = 0 ∨ (f 2 % 256) >>> 6 ≠ 2) by
            rw [not_or]; exact ⟨validCont_ne_zero _ hv2, not_not.mpr hv2⟩),
          if_pos (Or.inl rfl), gncCap_err]
  · exfalso
    have h1 : utf8ClassLen (f 0 % 256) = 1 := by
      unfold utf8ClassLen; rw [if_neg hA, if_neg hB, if_neg hC, if_neg hD]
    omega

/-- **C4**: `GetNextCodepoint` never inspects any byte past the terminating null
byte: its result depends only on the bytes up to and including the first null
(first conjunct); and when a multi-byte sequence (with a decodable lead byte)
is truncated by the null after valid continuation bytes, it stops there and
returns the replacement codepoint `0x3F` together with the count of bytes
inspected so far, null included (second conjunct). -/
theorem C4_stops_at_null :
    (∀ f g : ℕ → ℕ, ∀ n, f n = 0 → (∀ i, i ≤ n → f i = g i) →
        GetNextCodepoint f = GetNextCodepoint g) ∧
    (∀ f : ℕ → ℕ, ∀ j, 2 ≤ utf8ClassLen (f 0 % 256) → f 0 % 256 ≤ 0xf4 →
        1 ≤ j → j < utf8ClassLen (f 0 % 256) →
        (∀ i, 1 ≤ i → i < j → validCont (f i % 256)) → f j = 0 →
        GetNextCodepoint f = (0x3f, j + 1)) :=
  ⟨gnc_null_independent, gnc_truncated⟩

/-- Witness for C4: bytes past the null do not change the result (first part,
buffers `41 00 07` versus `41 00 09`), and the truncated three-byte sequence
`E0 A0 <null>` yields `(0x3F, 3)` (second part). -/
theorem C4_stops_at_null_witness :
    GetNextCodepoint (fun i => [0x41, 0, 7].getD i 0) =
      GetNextCodepoint (fun i => [0x41, 0, 9].getD i 0) ∧
    GetNextCodepoint (fun i => [0xe0, 0xa0].getD i 0) = (0x3f, 3) := by
  constructor
  · apply C4_stops_at_null.1 _ _ 1 rfl
    intro i hi
    interval_cases i <;> rfl
  · apply C4_stops_at_null.2 _ 2 (by decide) (by decide) (by decide) (by decide) _ rfl
    intro i h1 h2
    interval_cases i
    decide

/-! ### Layout engine: step and run lemmas -/

theorem gnc_ascii (b : ℕ) (t : List ℕ) (hb : b ≤ 0x7f) :
    GetNextCodepointL (b :: t) = (b, 1) := by
  rw [GetNextCodepointL, gnc_eval]
  simp only [List.getD_cons_zero]
  rw [Nat.mod_eq_of_lt (by omega), gncBytes_ascii _ _ _ _ hb]

theorem cpValue_ascii (b : ℕ) (t : List ℕ) (hb : b ≤ 0x7f) : cpValue (b :: t) = b := by
  unfold cpValue
  rw [gnc_ascii _ _ hb]

theorem cpAdvance_ascii (b : ℕ) (t : List ℕ) (hb : b ≤ 0x7f) : cpAdvance (b :: t) = 1 := by
  unfold cpAdvance
  rw [gnc_ascii _ _ hb]
  split <;> rfl

theorem codepointsAux_nil (fuel : ℕ) : codepointsAux fuel [] = [] := by
  cases fuel <;> rfl

theorem measureGo_nil (font : Font) (fuel : ℕ) (lenC tempLen : ℤ) (w tw hgt : ℚ) :
    measureGo font fuel [] lenC tempLen w tw hgt = (tempLen, w, tw, hgt) := by
  cases fuel <;> rfl

theorem drawGo_nil (font : Font) (pos : ℚ × ℚ) (fs sp : ℚ) (fuel : ℕ) (offX : ℚ)
    (offY : ℤ) (cmds : List DrawCmd) :
    drawGo font pos fs sp fuel [] offX offY cmds = (offX, offY, cmds) := by
  cases fuel <;> rfl

theorem measureGo_step_adv (font : Font) (fuel b : ℕ) (t : List ℕ) (lenC tempLen : ℤ)
    (w tw hgt : ℚ) (hb : b ≤ 0x7f) (h10 : ¬ b = 10)
    (hadv : ¬ (font.chars.getD (GetGlyphIndex font b) default).advanceX = 0) :
    measureGo font (fuel + 1) (b :: t) lenC tempLen w tw hgt =
      measureGo font fuel t (lenC + 1) (max tempLen (lenC + 1))
        (w + ((font.chars.getD (GetGlyphIndex font b) default).advanceX : ℚ)) tw hgt := by
  simp only [measureGo, cpValue_ascii _ _ hb, cpAdvance_ascii _ _ hb]
  rw [if_pos h10, if_pos hadv]
  simp

theorem measureGo_step_adv0 (font : Font) (fuel b : ℕ) (t : List ℕ) (lenC tempLen : ℤ)
    (w tw hgt : ℚ) (hb : b ≤ 0x7f) (h10 : ¬ b = 10)
    (hadv : (font.chars.getD (GetGlyphIndex font b) default).advanceX = 0) :
    measureGo font (fuel + 1) (b :: t) lenC tempLen w tw hgt =
      measureGo font fuel t (lenC + 1) (max tempLen (lenC + 1))
        (w + ((font.recs.getD (GetGlyphIndex font b) default).width +
          ((font.chars.getD (GetGlyphIndex font b) default).offsetX : ℚ))) tw hgt := by
  simp only [measureGo, cpValue_ascii _ _ hb, cpAdvance_ascii _ _ hb]
  rw [if_pos h10, if_neg (not_not.mpr hadv)]
  simp

theorem measureGo_step_newline (font : Font) (fuel : ℕ) (t : List ℕ) (lenC tempLen : ℤ)
    (w tw hgt : ℚ) :
    measureGo font (fuel + 1) (10 :: t) lenC tempLen w tw hgt =
      measureGo font fuel t 0 (max tempLen 0) 0 (max tw w)
        (hgt + (font.baseSize : ℚ) * (3 / 2)) := by
  simp only [measureGo, cpValue_ascii 10 t (by omega), cpAdvance_ascii 10 t (by omega)]
  rw [if_neg (by simp)]
  simp

theorem drawGo_step_adv0 (font : Font) (pos : ℚ × ℚ) (fs sp : ℚ) (fuel b : ℕ)
    (t : List ℕ) (offX : ℚ) (offY : ℤ) (cmds : List DrawCmd)
    (hb : b ≤ 0x7f) (h10 : ¬ b = 10)
    (hadv : (font.chars.getD (GetGlyphIndex font b) default).advanceX = 0) :
    (drawGo font pos fs sp (fuel + 1) (b :: t) offX offY cmds).1 =
      (drawGo font pos fs sp fuel t
        (offX + ((font.recs.getD (GetGlyphIndex font b) default).width *
          (fs / (font.baseSize : ℚ)) + sp)) offY
        (if ¬ b = 32 ∧ ¬ b = 9 then
          cmds ++ [⟨font.recs.getD (GetGlyphIndex font b) default,
            ⟨pos.1 + offX +
              ((font.chars.getD (GetGlyphIndex font b) default).offsetX : ℚ) *
                (fs / (font.baseSize : ℚ)),
             pos.2 + (offY : ℚ) +
              ((font.chars.getD (GetGlyphIndex font b) default).offsetY : ℚ) *
                (fs / (font.baseSize : ℚ)),
             (font.recs.getD (GetGlyphIndex font b) default).width *
                (fs / (font.baseSize : ℚ)),
             (font.recs.getD (GetGlyphIndex font b) default).height *
                (fs / (font.baseSize : ℚ))⟩⟩]
         else cmds)).1 := by
  simp only [drawGo, cpValue_ascii _ _ hb, cpAdvance_ascii _ _ hb]
  rw [if_neg h10, if_pos hadv]
  simp

theorem advSumQ_cons (font : Font) (c : ℕ) (cs : List ℕ) :
    advSumQ font (c :: cs) = advQ font c + advSumQ font cs := by
  simp [advSumQ]

theorem measureGo_run (font : Font) : ∀ (fuel : ℕ) (l : List ℕ), l.length ≤ fuel →
    (∀ c ∈ codepointsAux fuel l, ¬ c = 10 ∧
      0 < (font.chars.getD (GetGlyphIndex font c) default).advanceX) →
    ∀ (lenC tempLen : ℤ) (w tw hgt : ℚ),
      measureGo font fuel l lenC tempLen w tw hgt =
        ((if l = [] then tempLen
          else max tempLen (lenC + (codepointsAux fuel l).length)),
         w + advSumQ font (codepointsAux fuel l), tw, hgt) := by
  intro fuel
  induction fuel with
  | zero =>
    intro l hlen hcs lenC tempLen w tw hgt
    have hl : l = [] := by cases l <;> simp_all
    subst hl
    rw [measureGo_nil, codepointsAux_nil]
    simp [advSumQ]
  | succ fuel ih =>
    intro l hlen hcs lenC tempLen w tw hgt
    cases l with
    | nil =>
      rw [measureGo_nil, codepointsAux_nil]
      simp [advSumQ]
    | cons b t =>
      have hcp : codepointsAux (fuel + 1) (b :: t) =
          cpValue (b :: t) :: codepointsAux fuel (t.drop (cpAdvance (b :: t) - 1)) := rfl
      have hmem := hcs (cpValue (b :: t)) (by rw [hcp]; exact List.mem_cons_self _ _)
      simp only [measureGo]
      rw [if_pos hmem.1, if_pos hmem.2.ne']
      rw [ih (t.drop (cpAdvance (b :: t) - 1))
          (by simp only [List.length_drop]; simp at hlen; omega)
          (fun c hc => hcs c (by rw [hcp]; exact List.mem_cons_of_mem _ hc))]
      rw [hcp, advSumQ_cons]
      simp only [Prod.mk.injEq, List.length_cons, and_true]
      refine ⟨?_, ?_⟩
      · by_cases hd : t.drop (cpAdvance (b :: t) - 1) = []
        · rw [if_pos hd, if_neg (by simp), hd, codepointsAux_nil]
          simp
        · rw [if_neg hd, if_neg (by simp)]
          push_cast
          omega
      · unfold advQ
        ring

theorem drawGo_run (font : Font) (pos : ℚ × ℚ) (fs sp : ℚ) :
    ∀ (fuel : ℕ) (l : List ℕ), l.length ≤ fuel →
    (∀ c ∈ codepointsAux fuel l, ¬ c = 10 ∧
      0 < (font.chars.getD (GetGlyphIndex font c) default).advanceX) →
    ∀ (offX : ℚ) (offY : ℤ) (cmds : List DrawCmd),
      (drawGo font pos fs sp fuel l offX offY cmds).1 =
        offX + advSumQ font (codepointsAux fuel l) * (fs / (font.baseSize : ℚ)) +
          (codepointsAux fuel l).length * sp := by
  intro fuel
  induction fuel with
  | zero =>
    intro l hlen hcs offX offY cmds
    have hl : l = [] := by cases l <;> simp_all
    subst hl
    rw [drawGo_nil, codepointsAux_nil]
    simp [advSumQ]
  | succ fuel ih =>
    intro l hlen hcs offX offY cmds
    cases l with
    | nil =>
      rw [drawGo_nil, codepointsAux_nil]
      simp [advSumQ]
    | cons b t =>
      have hcp : codepointsAux (fuel + 1) (b :: t) =
          cpValue (b :: t) :: codepointsAux fuel (t.drop (cpAdvance (b :: t) - 1)) := rfl
      have hmem := hcs (cpValue (b :: t)) (by rw [hcp]; exact List.mem_cons_self _ _)
      simp only [drawGo]
      rw [if_neg hmem.1, if_neg hmem.2.ne']
      rw [ih (t.drop (cpAdvance (b :: t) - 1))
          (by simp only [List.length_drop]; simp at hlen; omega)
          (fun c hc => hcs c (by rw [hcp]; exact List.mem_cons_of_mem _ hc))]
      rw [hcp, advSumQ_cons]
      simp only [List.length_cons]
      unfold advQ
      push_cast
      ring

/-- **C10**: `MeasureTextEx` on the empty string returns width `-spacing` (the
`(tempLen - 1) * spacing` term with a character count of zero) and height
exactly one scaled line, i.e. the target pixel size. -/
theorem C10_measure_empty (font : Font) (fontSize spacing : ℚ)
    (hb : (font.baseSize : ℚ) ≠ 0) :
    measureTextEx font [] fontSize spacing = (-spacing, fontSize) := by
  unfold measureTextEx
  simp only [List.length_nil]
  rw [measureGo_nil]
  simp only [Prod.mk.injEq]
  constructor
  · norm_num
  · rw [mul_comm, div_mul_cancel₀ _ hb]

/-- Witness for C10 at a concrete font (base size 32), size 20, spacing 3. -/
theorem C10_measure_empty_witness :
    measureTextEx ⟨32, 0, [], []⟩ [] 20 3 = (-3, 20) :=
  C10_measure_empty ⟨32, 0, [], []⟩ 20 3 (by norm_num)

/-- Counterexample for C1: on a font whose glyph has `advanceX = 0`, bitmap
width 10 and `offsetX` 5, drawing the one-glyph string advances the pen by the
rectangle width alone (10) while measurement accumulates the rectangle width
plus `offsetX` (15): the two passes do not advance identically per glyph. -/
theorem C1_counterexample :
    (drawTextEx zeroAdvFont [65] (0, 0) 1 0).1 = 10 ∧
      (measureTextEx zeroAdvFont [65] 1 0).1 = 15 := by
  have hg : GetGlyphIndex zeroAdvFont 65 = 0 := by decide
  have hadv : (zeroAdvFont.chars.getD (GetGlyphIndex zeroAdvFont 65) default).advanceX = 0 := by
    decide
  constructor
  · show (drawGo zeroAdvFont (0, 0) 1 0 (0 + 1) [65] 0 0 []).1 = 10
    rw [drawGo_step_adv0 _ _ _ _ _ _ _ _ _ _ (by norm_num) (by norm_num) hadv,
        drawGo_nil]
    rw [hg]
    norm_num [zeroAdvFont]
  · show (measureTextEx zeroAdvFont [65] 1 0).1 = 15
    unfold measureTextEx
    simp only [List.length_cons, List.length_nil]
    rw [measureGo_step_adv0 _ _ _ _ _ _ _ _ _ (by norm_num) (by norm_num) hadv,
        measureGo_nil]
    rw [hg]
    norm_num [zeroAdvFont]

/-- **C1** (amended): draw iteration and measurement perform the same
codepoint walk, and for every text whose decoded codepoints all map to glyphs
with positive `advanceX` and contain no newline, both passes accumulate the
same advances at the same scale; the final draw pen offset equals the measured
width plus one spacing (draw adds `spacing` after every glyph, measurement
adds `(count − 1) · spacing`).  When a glyph has `advanceX = 0` the passes
differ: draw advances by the placement-rectangle width while measurement adds
the rectangle width plus the glyph's `offsetX` (see the counterexample). -/
theorem C1_draw_measure_advances (font : Font) (text : List ℕ) (pos : ℚ × ℚ)
    (fontSize spacing : ℚ)
    (h : ∀ c ∈ codepoints text, ¬ c = 10 ∧
      0 < (font.chars.getD (GetGlyphIndex font c) default).advanceX) :
    (drawTextEx font text pos fontSize spacing).1 =
      (measureTextEx font text fontSize spacing).1 + spacing := by
  unfold codepoints at h
  unfold drawTextEx measureTextEx
  rw [drawGo_run font pos fontSize spacing text.length text (le_refl _) h]
  rw [measureGo_run font text.length text (le_refl _) h]
  cases text with
  | nil =>
    rw [if_pos rfl]
    simp [codepointsAux_nil, advSumQ]
  | cons b t =>
    rw [if_neg (by simp)]
    have hw : 0 ≤ advSumQ font (codepointsAux (b :: t).length (b :: t)) := by
      apply List.sum_nonneg
      intro x hx
      obtain ⟨c, hc, rfl⟩ := List.mem_map.mp hx
      have := (h c hc).2
      unfold advQ
      exact_mod_cast this.le
    have hn : (0 : ℤ) ≤ (codepointsAux (b :: t).length (b :: t)).length := by positivity
    simp only [zero_add, max_eq_right hw, max_eq_right hn]
    push_cast
    ring

/-- Witness for C1 (amended) at a concrete font and two-glyph string. -/
theorem C1_draw_measure_advances_witness :
    (drawTextEx hiFont [72, 105] (0, 0) 32 2).1 =
      (measureTextEx hiFont [72, 105] 32 2).1 + 2 :=
  C1_draw_measure_advances hiFont [72, 105] (0, 0) 32 2 (by decide)

theorem measure_hiWorld :
    measureTextEx hiFont [72, 105, 10, 87, 111, 114, 108, 100] 32 0 = (38, 80) := by
  have h72 : ¬ (hiFont.chars.getD (GetGlyphIndex hiFont 72) default).advanceX = 0 := by decide
  have h105 : ¬ (hiFont.chars.getD (GetGlyphIndex hiFont 105) default).advanceX = 0 := by
    decide
  unfold measureTextEx
  simp only [List.length_cons, List.length_nil]
  rw [measureGo_step_adv _ _ _ _ _ _ _ _ _ (by norm_num) (by norm_num) h72,
      measureGo_step_adv _ _ _ _ _ _ _ _ _ (by norm_num) (by norm_num) h105,
      measureGo_step_newline,
      measureGo_run hiFont _ _ (by norm_num) (by decide)]
  rw [if_neg (by simp)]
  rw [show codepointsAux (0 + 1 + 1 + 1 + 1 + 1) [87, 111, 114, 108, 100] =
        [87, 111, 114, 108, 100] from by decide]
  have e1 : (hiFont.chars.getD (GetGlyphIndex hiFont 72) default).advanceX = 10 := by decide
  have e2 : (hiFont.chars.getD (GetGlyphIndex hiFont 105) default).advanceX = 5 := by decide
  have e3 : advSumQ hiFont [87, 111, 114, 108, 100] = 38 := by
    have a1 : (hiFont.chars.getD (GetGlyphIndex hiFont 87) default).advanceX = 12 := by decide
    have a2 : (hiFont.chars.getD (GetGlyphIndex hiFont 111) default).advanceX = 8 := by decide
    have a3 : (hiFont.chars.getD (GetGlyphIndex hiFont 114) default).advanceX = 6 := by decide
    have a4 : (hiFont.chars.getD (GetGlyphIndex hiFont 108) default).advanceX = 4 := by decide
    have a5 : (hiFont.chars.getD (GetGlyphIndex hiFont 100) default).advanceX = 8 := by decide
    simp only [advSumQ, advQ, List.map_cons, List.map_nil, List.sum_cons, List.sum_nil]
    rw [a1, a2, a3, a4, a5]
    norm_num
  rw [e1, e2, e3, show hiFont.baseSize = (32 : ℤ) from rfl]
  push_cast
  norm_num [max_def]

/-- Counterexample for C9: measuring the two-line string "Hi\nWorld" at size
32 with spacing 0 on the base-size-32 `hiFont` yields height 80, not
`1.5 × 32 × 2 = 96`: the first line contributes one full base size and only
each newline adds the 1.5× line height. -/
theorem C9_counterexample :
    (measureTextEx hiFont [72, 105, 10, 87, 111, 114, 108, 100] 32 0).2 ≠
      3 / 2 * 32 * 2 := by
  rw [measure_hiWorld]
  norm_num

/-- **C9** (amended): measuring "Hi\nWorld" at size 32 with spacing 0 on the
base-size-32 `hiFont` reports width equal to the wider of the two lines'
accumulated advances (`max (10+5) (12+8+6+4+8) = 38`) and height equal to one
base size for the first line plus one fixed 1.5× line height for the newline:
`32 · (1 + 3/2) = 80`, scaled by the (here unit) size ratio. -/
theorem C9_two_line_measure :
    measureTextEx hiFont [72, 105, 10, 87, 111, 114, 108, 100] 32 0 =
      (max (10 + 5) (12 + 8 + 6 + 4 + 8), 32 * (1 + 3 / 2)) := by
  rw [measure_hiWorld]
  norm_num

/-! ### C6: glyph lookup -/

theorem glyphIndexAux_found (chars : List CharInfo) (cp : ℕ) :
    ∀ (fuel i : ℕ), (∃ j, j < fuel ∧ (chars.getD (i + j) default).value = cp) →
      i ≤ glyphIndexAux chars cp i fuel ∧
      glyphIndexAux chars cp i fuel < i + fuel ∧
      (chars.getD (glyphIndexAux chars cp i fuel) default).value = cp ∧
      ∀ m, i ≤ m → m < glyphIndexAux chars cp i fuel →
        (chars.getD m default).value ≠ cp := by
  intro fuel
  induction fuel with
  | zero =>
    intro i h
    obtain ⟨j, hj, _⟩ := h
    omega
  | succ fuel ih =>
    intro i h
    by_cases h0 : (chars.getD i default).value = cp
    · simp only [glyphIndexAux, if_pos h0]
      exact ⟨le_refl i, by omega, h0, fun m h1 h2 => by omega⟩
    · simp only [glyphIndexAux, if_neg h0]
      have hex : ∃ j, j < fuel ∧ (chars.getD (i + 1 + j) default).value = cp := by
        obtain ⟨j, hj, hv⟩ := h
        cases j with
        | zero => exact absurd (by simpa using hv) h0
        | succ j => exact ⟨j, by omega, by rw [show i + 1 + j = i + (j + 1) by omega]; exact hv⟩
      obtain ⟨ha, hb, hc, hd⟩ := ih (i + 1) hex
      refine ⟨by omega, by omega, hc, ?_⟩
      intro m h1 h2
      rcases Nat.eq_or_lt_of_le h1 with rfl | h1'
      · exact h0
      · exact hd m (by omega) h2

theorem glyphIndexAux_notfound (chars : List CharInfo) (cp : ℕ) :
    ∀ (fuel i : ℕ), (∀ j, j < fuel → (chars.getD (i + j) default).value ≠ cp) →
      glyphIndexAux chars cp i fuel = TEXT_CHARACTER_NOTFOUND := by
  intro fuel
  induction fuel with
  | zero => intro i _; rfl
  | succ fuel ih =>
    intro i h
    have h0 : (chars.getD i default).value ≠ cp := by simpa using h 0 (by omega)
    simp only [glyphIndexAux, if_neg h0]
    exact ih (i + 1) fun j hj => by
      rw [show i + 1 + j = i + (j + 1) by omega]
      exact h (j + 1) (by omega)

/-- **C6** (amended): when the codepoint occurs among the first `charsCount`
glyph entries, `GetGlyphIndex` returns the first matching index; when it is
absent it returns the constant fallback index 63 (`TEXT_CHARACTER_NOTFOUND`,
the *codepoint value* of the question mark used as an index), for every font
regardless of glyph count — not the index at which the font stores its
replacement-character glyph. -/
theorem C6_glyph_lookup :
    (∀ (font : Font) (cp i : ℕ), i < font.charsCount →
        (font.chars.getD i default).value = cp →
        GetGlyphIndex font cp < font.charsCount ∧
        (font.chars.getD (GetGlyphIndex font cp) default).value = cp ∧
        GetGlyphIndex font cp ≤ i ∧
        ∀ m, m < GetGlyphIndex font cp → (font.chars.getD m default).value ≠ cp) ∧
    (∀ (font : Font) (cp : ℕ),
        (∀ i, i < font.charsCount → (font.chars.getD i default).value ≠ cp) →
        GetGlyphIndex font cp = TEXT_CHARACTER_NOTFOUND) := by
  constructor
  · intro font cp i hi hv
    have h := glyphIndexAux_found font.chars cp font.charsCount 0 ⟨i, hi, by simpa using hv⟩
    obtain ⟨_, hb, hc, hd⟩ := h
    refine ⟨by simpa [GetGlyphIndex] using hb, hc, ?_, fun m hm => hd m (by omega) hm⟩
    by_contra hlt
    push_neg at hlt
    exact hd i (by omega) hlt hv
  · intro font cp h
    exact glyphIndexAux_notfound font.chars cp font.charsCount 0 fun j hj => by
      simpa using h j hj

/-- Witness for C6 (amended) at a concrete font: codepoint 72 is stored at
index 0 of `hiFont` and found there; codepoint 33 is absent and the fallback
index 63 is returned. -/
theorem C6_glyph_lookup_witness :
    GetGlyphIndex hiFont 72 ≤ 0 ∧ GetGlyphIndex hiFont 33 = TEXT_CHARACTER_NOTFOUND :=
  ⟨(C6_glyph_lookup.1 hiFont 72 0 (by decide) (by decide)).2.2.1,
   C6_glyph_lookup.2 hiFont 33 (by decide)⟩

/-- Counterexample for C6: in `qmarkFont` the replacement-character glyph
(codepoint 63) sits at index 0 — looking it up returns 0 — yet looking up an
absent codepoint returns 63, which is not the replacement glyph's index (and
not even a valid index for this one-glyph font). -/
theorem C6_counterexample :
    GetGlyphIndex qmarkFont 63 = 0 ∧ GetGlyphIndex qmarkFont 66 = 63 ∧
      qmarkFont.charsCount = 1 := by
  refine ⟨by decide, by decide, rfl⟩

/-! ### C5: LoadFontData error behavior -/

/-- **C5** (amended): `LoadFontData` returns no glyph records only when the
font *file* cannot be opened (logging a warning); when the rasterizer rejects
the byte buffer it logs the init-failure warning but still proceeds and
returns a full `charsCount`-length list of glyph records extracted through the
failed handle — the failure is reported but the records are not withheld. -/
theorem C5_loadFontData_behavior (rast : RasterizerM) (fileData : Option (List ℕ))
    (fontSize : ℕ) (fontChars : Option (List ℕ)) (charsCount ftype : ℕ) :
    (fileData = none →
      (LoadFontData rast fileData fontSize fontChars charsCount ftype).chars = none ∧
      (LoadFontData rast fileData fontSize fontChars charsCount ftype).warnedFileOpen
        = true) ∧
    (∀ buf, fileData = some buf →
      (LoadFontData rast fileData fontSize fontChars charsCount ftype).warnedInitFail
        = (! rast.initFont buf) ∧
      ∃ l, (LoadFontData rast fileData fontSize fontChars charsCount ftype).chars
          = some l ∧
        l.length = (if 0 < charsCount then charsCount else 95)) := by
  cases fileData with
  | none =>
    refine ⟨fun _ => ⟨rfl, rfl⟩, fun buf hb => by simp at hb⟩
  | some buf =>
    refine ⟨fun hn => by simp at hn, fun b hb => ?_⟩
    obtain rfl : buf = b := by injection hb
    refine ⟨rfl, ⟨_, rfl, ?_⟩⟩
    simp [LoadFontData]

/-- Witness for C5 (amended) at concrete inputs: an unopenable file gives no
records, and a rejected buffer sets the init warning. -/
theorem C5_loadFontData_behavior_witness :
    (LoadFontData rejectingRast none 32 none 1 FONT_DEFAULT).chars = none ∧
    (LoadFontData rejectingRast (some [1]) 32 none 1 FONT_DEFAULT).warnedInitFail
      = (! rejectingRast.initFont [1]) :=
  ⟨((C5_loadFontData_behavior rejectingRast none 32 none 1 FONT_DEFAULT).1 rfl).1,
   ((C5_loadFontData_behavior rejectingRast (some [1]) 32 none 1 FONT_DEFAULT).2
      [1] rfl).1⟩

/-- Counterexample for C5: with a rasterizer that rejects the buffer, the
extractor still returns one glyph record (not an empty result); the failure is
only logged. -/
theorem C5_counterexample :
    rejectingRast.initFont [1] = false ∧
    (LoadFontData rejectingRast (some [1]) 32 none 1 FONT_DEFAULT).chars.map
        List.length = some 1 ∧
    (LoadFontData rejectingRast (some [1]) 32 none 1 FONT_DEFAULT).warnedInitFail
      = true := by
  refine ⟨rfl, ?_, rfl⟩
  simp [LoadFontData]

/-! ### C7: atlas sizing -/

theorem potExpAux_spec (A : ℕ) : ∀ (fuel k : ℕ), 169 * A ≤ 100 * 4 ^ (k + fuel) →
    169 * A ≤ 100 * 4 ^ (potExpAux A fuel k) ∧ k ≤ potExpAux A fuel k ∧
    ∀ j, k ≤ j → j < potExpAux A fuel k → ¬(169 * A ≤ 100 * 4 ^ j) := by
  intro fuel
  induction fuel with
  | zero =>
    intro k h
    simp only [potExpAux]
    exact ⟨by simpa using h, le_refl k, fun j h1 h2 => by omega⟩
  | succ fuel ih =>
    intro k h
    by_cases h0 : 169 * A ≤ 100 * 4 ^ k
    · simp only [potExpAux, if_pos h0]
      exact ⟨h0, le_refl k, fun j h1 h2 => by omega⟩
    · simp only [potExpAux, if_neg h0]
      obtain ⟨ha, hb, hc⟩ := ih (k + 1)
        (by rw [show k + 1 + fuel = k + (fuel + 1) by omega]; exact h)
      refine ⟨ha, by omega, ?_⟩
      intro j h1 h2
      rcases Nat.eq_or_lt_of_le h1 with rfl | h1'
      · exact h0
      · exact hc j (by omega) h2

theorem potExp_fuel (A : ℕ) : 169 * A ≤ 100 * 4 ^ (0 + (A + 1)) := by
  have h1 : A < 2 ^ A := Nat.lt_two_pow A
  have h2 : (2 : ℕ) ^ A ≤ 4 ^ A := Nat.pow_le_pow_left (by norm_num) A
  have h3 : (4 : ℕ) ^ (A + 1) = 4 * 4 ^ A := by rw [pow_succ]; ring
  have h4 : 169 * A ≤ 400 * 4 ^ A := by nlinarith
  simpa [h3] using by nlinarith

theorem two_pow_sq (k : ℕ) : ((2 : ℕ) ^ k) ^ 2 = 4 ^ k := by
  rw [show (4 : ℕ) = 2 * 2 by norm_num, mul_pow, pow_two]

/-- **C7** (amended): the atlas is square and its side is the smallest power
of two `s` with `s ≥ 1.3·√A` (equivalently `100·s² ≥ 169·A`), where `A` is the
summed padded glyph area — not the smallest power of two with `s² ≥ 1.3·A` as
claimed (the source takes `guessSize = sqrt(requiredArea)·1.3` and rounds that
*side length*, not the area, up to a power of two). -/
theorem C7_atlas_size (chars : List CharInfo) (count padding : ℕ) :
    (GenImageFontAtlasSize chars count padding).2
      = (GenImageFontAtlasSize chars count padding).1 ∧
    (∃ k, (GenImageFontAtlasSize chars count padding).1 = 2 ^ k) ∧
    169 * requiredArea chars (if 0 < count then count else 95) padding ≤
      100 * (GenImageFontAtlasSize chars count padding).1 ^ 2 ∧
    ∀ m k, m = 2 ^ k →
      169 * requiredArea chars (if 0 < count then count else 95) padding
        ≤ 100 * m ^ 2 →
      (GenImageFontAtlasSize chars count padding).1 ≤ m := by
  set A := requiredArea chars (if 0 < count then count else 95) padding with hA
  obtain ⟨ha, _, hc⟩ := potExpAux_spec A (A + 1) 0 (potExp_fuel A)
  refine ⟨rfl, ⟨potExpAux A (A + 1) 0, rfl⟩, ?_, ?_⟩
  · show 169 * A ≤ 100 * (2 ^ potExpAux A (A + 1) 0) ^ 2
    rw [two_pow_sq]
    exact ha
  · intro m k hm harea
    subst hm
    rw [two_pow_sq] at harea
    show (2 : ℕ) ^ potExpAux A (A + 1) 0 ≤ 2 ^ k
    apply Nat.pow_le_pow_right (by norm_num)
    by_contra hlt
    push_neg at hlt
    exact hc k (by omega) hlt harea

/-- Counterexample for C7: one 100×100 glyph with padding 0 has summed area
`A = 10000`; the source computes side 256 (least power of two ≥ 1.3·100 =
130), yet 128 is a smaller power of two already satisfying the claim's
condition `side² ≥ 1.3·A` (10·128² = 163840 ≥ 13·10000 = 130000), so the side
is not the smallest such power of two. -/
theorem C7_counterexample :
    (GenImageFontAtlasSize [⟨0, 100, 100, [], 0, 0, 0⟩] 1 0).1 = 256 ∧
    requiredArea [⟨0, 100, 100, [], 0, 0, 0⟩] 1 0 = 10000 ∧
    (128 : ℕ) = 2 ^ 7 ∧
    13 * requiredArea [⟨0, 100, 100, [], 0, 0, 0⟩] 1 0 ≤ 10 * 128 ^ 2 ∧
    (128 : ℕ) < 256 := by
  refine ⟨by decide, by decide, by decide, by decide, by decide⟩

/-! ### C8: placement rectangle sizes -/

theorem getD_map_none (l : List CharInfo) :
    ∀ i, (l.map fun _ => (none : Option Rectangle)).getD i none = none := by
  induction l with
  | nil => intro i; simp
  | cons a l ih =>
    intro i
    cases i with
    | zero => simp
    | succ i => simp only [List.map_cons, List.getD_cons_succ]; exact ih i

theorem rowPackGo_recorded (atlasW atlasH fontSize padding : ℤ) :
    ∀ (glyphs : List CharInfo) (offX offY : ℤ) (i : ℕ) (r : Rectangle),
      (rowPackGo atlasW atlasH fontSize padding glyphs offX offY).getD i none
        = some r →
      r.width = ((glyphs.getD i default).imgWidth : ℚ) ∧
      r.height = ((glyphs.getD i default).imgHeight : ℚ) := by
  intro glyphs
  induction glyphs with
  | nil =>
    intro offX offY i r h
    simp [rowPackGo] at h
  | cons ci rest ih =>
    intro offX offY i r h
    simp only [rowPackGo] at h
    split_ifs at h with h1 h2
    · cases i with
      | zero =>
        simp only [List.getD_cons_zero] at h
        cases h
        exact ⟨rfl, rfl⟩
      | succ i =>
        simp only [List.getD_cons_succ] at h
        rw [getD_map_none] at h
        cases h
    · cases i with
      | zero =>
        simp only [List.getD_cons_zero] at h
        cases h
        exact ⟨rfl, rfl⟩
      | succ i =>
        simp only [List.getD_cons_succ] at h
        exact ih _ _ i r h
    · cases i with
      | zero =>
        simp only [List.getD_cons_zero] at h
        cases h
        exact ⟨rfl, rfl⟩
      | succ i =>
        simp only [List.getD_cons_succ] at h
        exact ih _ _ i r h

theorem skylineRecs_size (chars : List CharInfo) (count padding : ℕ)
    (pack : ℕ → ℤ × ℤ × Bool) (i : ℕ) (hi : i < (if 0 < count then count else 95)) :
    (skylineRecs chars count padding pack).getD i default =
      ⟨((pack i).1 : ℚ) + (padding : ℚ), ((pack i).2.1 : ℚ) + (padding : ℚ),
       ((chars.getD i default).imgWidth : ℚ), ((chars.getD i default).imgHeight : ℚ)⟩ := by
  unfold skylineRecs
  rw [List.getD_eq_getElem?_getD, List.getElem?_map, List.getElem?_range hi]
  rfl

/-- **C8**: under both packing algorithms, every Placement Rectangle that is
recorded for a glyph has width and height exactly equal to that glyph's bitmap
width and height; the padding enters only the placement position, never the
recorded size.  (Row packing records no rectangle at all for glyphs skipped by
the overflow `break`; skyline packing records one for every glyph.) -/
theorem C8_rect_sizes :
    (∀ (atlasW atlasH fontSize padding : ℤ) (glyphs : List CharInfo)
        (offX offY : ℤ) (i : ℕ) (r : Rectangle),
        (rowPackGo atlasW atlasH fontSize padding glyphs offX offY).getD i none
          = some r →
        r.width = ((glyphs.getD i default).imgWidth : ℚ) ∧
        r.height = ((glyphs.getD i default).imgHeight : ℚ)) ∧
    (∀ (chars : List CharInfo) (count padding : ℕ) (pack : ℕ → ℤ × ℤ × Bool)
        (i : ℕ), i < (if 0 < count then count else 95) →
        ((skylineRecs chars count padding pack).getD i default).width
          = ((chars.getD i default).imgWidth : ℚ) ∧
        ((skylineRecs chars count padding pack).getD i default).height
          = ((chars.getD i default).imgHeight : ℚ)) := by
  refine ⟨rowPackGo_recorded, ?_⟩
  intro chars count padding pack i hi
  rw [skylineRecs_size chars count padding pack i hi]
  exact ⟨rfl, rfl⟩

/-- Witness for C8 at a concrete glyph and packer input. -/
theorem C8_rect_sizes_witness :
    ((⟨((0 : ℤ) : ℚ), ((0 : ℤ) : ℚ), ((4 : ℕ) : ℚ), ((4 : ℕ) : ℚ)⟩ : Rectangle).width
        = ((([⟨0, 4, 4, [], 0, 0, 0⟩] : List CharInfo).getD 0 default).imgWidth : ℚ) ∧
     (⟨((0 : ℤ) : ℚ), ((0 : ℤ) : ℚ), ((4 : ℕ) : ℚ), ((4 : ℕ) : ℚ)⟩ : Rectangle).height
        = ((([⟨0, 4, 4, [], 0, 0, 0⟩] : List CharInfo).getD 0 default).imgHeight : ℚ)) ∧
    (((skylineRecs [⟨0, 4, 4, [], 0, 0, 0⟩] 1 0 (fun _ => (0, 0, true))).getD 0
          default).width
        = ((([⟨0, 4, 4, [], 0, 0, 0⟩] : List CharInfo).getD 0 default).imgWidth : ℚ) ∧
     ((skylineRecs [⟨0, 4, 4, [], 0, 0, 0⟩] 1 0 (fun _ => (0, 0, true))).getD 0
          default).height
        = ((([⟨0, 4, 4, [], 0, 0, 0⟩] : List CharInfo).getD 0 default).imgHeight : ℚ)) :=
  ⟨C8_rect_sizes.1 8 8 32 0 [⟨0, 4, 4, [], 0, 0, 0⟩] 0 0 0
      ⟨((0 : ℤ) : ℚ), ((0 : ℤ) : ℚ), ((4 : ℕ) : ℚ), ((4 : ℕ) : ℚ)⟩ rfl,
   C8_rect_sizes.2 [⟨0, 4, 4, [], 0, 0, 0⟩] 1 0 (fun _ => (0, 0, true)) 0 (by norm_num)⟩
